import Mathlib

/-!
A shallow embedding of the pyctrials clinical-trials client
(`clinical_trials_api.py`) and proofs about its specification.

The embedding covers:
  * `ClinicalTrialParser.flatten_trial` (nested-record flattening),
  * `ClinicalTrialsAPI._process_response` (JSON page to table),
  * `ClinicalTrialsAPI._merge_trials` (pandas outer merge plus
    column-conflict resolution via `combine_first`),
  * `ClinicalTrialsAPI.fetch_trials` (pagination plus bounded retry).

Python dictionaries holding one study are embedded as typed structures of
`Option` fields: a field is `none` exactly when its key is absent from the
raw record.  Python exceptions are embedded with `Except`; the distinct
exception classes that matter to control flow (`RequestException`,
`KeyError`, `json.JSONDecodeError`) are constructors of `PyExc`.  pandas
DataFrames are embedded as a rectangular `Table` of column names and rows
of nullable cells, with `FlatValue.null` playing the role of `None`/`NaN`.
The HTTP transport is embedded as a script: a list of per-request outcomes
consumed one per `requests.get` call.
-/

namespace CTrials

/-- A cell of a flattened record / DataFrame: Python `None`/`NaN`, a
string, or an integer (the only scalar kinds the client produces). -/
inductive FlatValue where
  | null
  | str (s : String)
  | int (n : Int)
deriving DecidableEq, Repr

/-- The Python exceptions relevant to this client. `requestException`
is the only class caught by the retry loop; `keyError` models a failed
`dict[key]` access (and the pandas missing-merge-key error); and
`jsonDecodeError` models `json.loads` failing on an unparseable body.
`scriptExhausted` is an artifact of the transport-script embedding: it
is returned when the script has no outcome left for a request. -/
inductive PyExc where
  | requestException (msg : String)
  | keyError (key : String)
  | jsonDecodeError (msg : String)
  | scriptExhausted
deriving DecidableEq, Repr

/-- Python `d[key]` on an optional field: the value, or `KeyError`. -/
def req {α : Type} (o : Option α) (key : String) : Except PyExc α :=
  match o with
  | some v => .ok v
  | none => .error (.keyError key)

/-! ### The raw study record (nested JSON, typed) -/

/-- `identification.get('orgStudyIdInfo', \x7b\x7d)` target. -/
structure OrgStudyIdInfo where
  id : Option String
deriving DecidableEq, Repr

/-- `protocol['identificationModule']`. -/
structure IdentificationModule where
  nctId : Option String
  orgStudyIdInfo : Option OrgStudyIdInfo
  briefTitle : Option String
deriving DecidableEq, Repr

/-- `status.get('startDateStruct', \x7b\x7d)` and the completion variant. -/
structure DateStruct where
  date : Option String
deriving DecidableEq, Repr

/-- `protocol['statusModule']`. -/
structure StatusModule where
  overallStatus : Option String
  lastKnownStatus : Option String
  startDateStruct : Option DateStruct
  completionDateStruct : Option DateStruct
deriving DecidableEq, Repr

/-- `sponsor.get('leadSponsor', \x7b\x7d)` target. -/
structure LeadSponsor where
  name : Option String
deriving DecidableEq, Repr

/-- `protocol['sponsorCollaboratorsModule']`. -/
structure SponsorCollaboratorsModule where
  leadSponsor : Option LeadSponsor
deriving DecidableEq, Repr

/-- `protocol.get('descriptionModule', \x7b\x7d)` target. -/
structure DescriptionModule where
  briefSummary : Option String
deriving DecidableEq, Repr

/-- `protocol.get('conditionsModule', \x7b\x7d)` target. -/
structure ConditionsModule where
  conditions : Option (List String)
  keywords : Option (List String)
deriving DecidableEq, Repr

/-- `design.get('enrollmentInfo', \x7b\x7d)` target. -/
structure EnrollmentInfo where
  count : Option Int
deriving DecidableEq, Repr

/-- `protocol.get('designModule', \x7b\x7d)` target. -/
structure DesignModule where
  enrollmentInfo : Option EnrollmentInfo
  studyType : Option String
  phases : Option (List String)
deriving DecidableEq, Repr

/-- One entry of the `locations` list. -/
structure TrialLocation where
  facility : Option String
  city : Option String
  country : Option String
deriving DecidableEq, Repr

/-- `protocol.get('contactsLocationsModule', \x7b\x7d)` target. -/
structure ContactsLocationsModule where
  locations : Option (List TrialLocation)
deriving DecidableEq, Repr

/-- `trial['protocolSection']`: the top-level protocol section. -/
structure ProtocolSection where
  identificationModule : Option IdentificationModule
  statusModule : Option StatusModule
  sponsorCollaboratorsModule : Option SponsorCollaboratorsModule
  descriptionModule : Option DescriptionModule
  conditionsModule : Option ConditionsModule
  designModule : Option DesignModule
  contactsLocationsModule : Option ContactsLocationsModule
deriving DecidableEq, Repr

/-- One raw study record as returned by the registry API. -/
structure RawStudy where
  protocolSection : Option ProtocolSection
deriving DecidableEq, Repr

/-- The empty-dict defaults used by the `.get(key, \x7b\x7d)` accesses. -/
def OrgStudyIdInfo.empty : OrgStudyIdInfo := ⟨none⟩

/-- Empty `startDateStruct` / `completionDateStruct` default. -/
def DateStruct.empty : DateStruct := ⟨none⟩

/-- Empty `leadSponsor` default. -/
def LeadSponsor.empty : LeadSponsor := ⟨none⟩

/-- Empty `descriptionModule` default. -/
def DescriptionModule.empty : DescriptionModule := ⟨none⟩

/-- Empty `conditionsModule` default. -/
def ConditionsModule.empty : ConditionsModule := ⟨none, none⟩

/-- Empty `enrollmentInfo` default. -/
def EnrollmentInfo.empty : EnrollmentInfo := ⟨none⟩

/-- Empty `designModule` default. -/
def DesignModule.empty : DesignModule := ⟨none, none, none⟩

/-- Empty `contactsLocationsModule` default. -/
def ContactsLocationsModule.empty : ContactsLocationsModule := ⟨none⟩

/-! ### The flattened record -/

/-- A flattened trial: the ordered key-value mapping built by
`flatten_trial` (a Python dict, insertion ordered). -/
abbrev FlatRecord : Type := List (String × FlatValue)

/-- A Python value that may be `None`: `identification.get('nctId')`. -/
def optStr (o : Option String) : FlatValue :=
  match o with
  | some s => .str s
  | none => .null

/-- As `optStr`, for integer-valued fields. -/
def optInt (o : Option Int) : FlatValue :=
  match o with
  | some n => .int n
  | none => .null

/-- Python `', '.join(xs)`. -/
def joinComma (xs : List String) : String :=
  String.intercalate ", " xs

/-- The f-string rendering one location entry:
`"\x7bfacility\x7d (\x7bcity\x7d, \x7bcountry\x7d)"` with `.get(key, '')`
defaults. -/
def formatLocation (loc : TrialLocation) : String :=
  (loc.facility.getD "") ++ " (" ++ (loc.city.getD "") ++ ", " ++ (loc.country.getD "") ++ ")"

/-- `ClinicalTrialParser.flatten_trial`.  Mirrors the Python line by line:
the four bracketed accesses (`protocolSection`, `identificationModule`,
`statusModule`, `sponsorCollaboratorsModule`) raise `KeyError` when the
key is absent, every other access uses `.get` defaults, and the
`locations` key is only inserted when the locations list is nonempty. -/
def flatten_trial (trial : RawStudy) : Except PyExc FlatRecord := do
  let protocol ← req trial.protocolSection "protocolSection"
  let identification ← req protocol.identificationModule "identificationModule"
  let status ← req protocol.statusModule "statusModule"
  let sponsor ← req protocol.sponsorCollaboratorsModule "sponsorCollaboratorsModule"
  let description := protocol.descriptionModule.getD .empty
  let conditions := protocol.conditionsModule.getD .empty
  let design := protocol.designModule.getD .empty
  let locations := (protocol.contactsLocationsModule.getD .empty).locations.getD []
  let base : FlatRecord := [
    ("nct_id", optStr identification.nctId),
    ("org_study_id", optStr (identification.orgStudyIdInfo.getD .empty).id),
    ("brief_title", optStr identification.briefTitle),
    ("overall_status", optStr status.overallStatus),
    ("last_known_status", optStr status.lastKnownStatus),
    ("start_date", optStr (status.startDateStruct.getD .empty).date),
    ("completion_date", optStr (status.completionDateStruct.getD .empty).date),
    ("sponsor", optStr (sponsor.leadSponsor.getD .empty).name),
    ("brief_summary", optStr description.briefSummary),
    ("conditions", .str (joinComma (conditions.conditions.getD []))),
    ("keywords", .str (joinComma (conditions.keywords.getD []))),
    ("enrollment_count", optInt (design.enrollmentInfo.getD .empty).count),
    ("study_type", optStr design.studyType),
    ("phase", .str (joinComma (design.phases.getD [])))]
  if locations.isEmpty then
    pure base
  else
    pure (base ++ [("locations", .str (joinComma (locations.map formatLocation)))])

/-! ### Tables (pandas DataFrames) -/

/-- A pandas DataFrame: named columns and rows of cells.  A well-formed
table is rectangular (`Table.WF` below); every construction in the code
preserves that.  `FlatValue.null` stands for `NaN`/`None`/`NaT`. -/
structure Table where
  cols : List String
  rows : List (List FlatValue)
deriving DecidableEq, Repr

/-- `pd.DataFrame()`: the empty table. -/
def emptyTable : Table := ⟨[], []⟩

/-- Rectangularity: every row has one cell per column. -/
def Table.WF (t : Table) : Prop :=
  ∀ r ∈ t.rows, r.length = t.cols.length

instance (t : Table) : Decidable t.WF :=
  inferInstanceAs (Decidable (∀ r ∈ t.rows, r.length = t.cols.length))

/-- Index of a column name in a column list. -/
def colIdx (cols : List String) (c : String) : Option Nat :=
  match cols with
  | [] => none
  | x :: xs => if x = c then some 0 else (colIdx xs c).map (· + 1)

/-- The cell of row `r` in column `c` (with `cols` the column list of the
table `r` belongs to).  Absent columns read as `null`, mirroring how the
proofs only ever use this on columns known to exist. -/
def getCell (cols : List String) (r : List FlatValue) (c : String) : FlatValue :=
  match colIdx cols c with
  | some i => r.getD i .null
  | none => .null

/-- The column `c` of table `t`, as the list of its cells, top to bottom
(`df[c]` as a Series). -/
def colAt (t : Table) (c : String) : List FlatValue :=
  t.rows.map (fun r => getCell t.cols r c)

/-- `df[name] = vals` with `vals` a column of values: replaces the column
in place when it exists, otherwise appends it on the right. -/
def setColVals (t : Table) (c : String) (vals : List FlatValue) : Table :=
  match colIdx t.cols c with
  | some i => ⟨t.cols, List.zipWith (fun r v => r.set i v) t.rows vals⟩
  | none => ⟨t.cols ++ [c], List.zipWith (fun r v => r ++ [v]) t.rows vals⟩

/-- `df[name] = scalar`: broadcast a scalar down the column. -/
def setColScalar (t : Table) (c : String) (v : FlatValue) : Table :=
  setColVals t c (List.replicate t.rows.length v)

/-- `df.drop(names, axis=1)`: remove the named columns and the matching
cell of every row. -/
def dropCols (t : Table) (names : List String) : Table :=
  ⟨t.cols.filter (fun c => decide (c ∉ names)),
   t.rows.map (fun r => ((t.cols.zip r).filter (fun p => decide (p.1 ∉ names))).map Prod.snd)⟩

/-! ### `_merge_trials`: pandas outer merge plus conflict resolution -/

/-- Scanner for `pyReplace` (Python `str.replace`): left-to-right,
non-overlapping replacement.  `skip` counts characters still owned by the
most recent match.  (The client only replaces the nonempty pattern
`'_1'`; the empty-pattern corner of Python `replace` is not modelled.) -/
def replaceGo (pat repl : List Char) (skip : Nat) : List Char → List Char
  | [] => []
  | c :: rest =>
    match skip with
    | k + 1 => replaceGo pat repl k rest
    | 0 =>
      if pat.isPrefixOf (c :: rest) then
        repl ++ replaceGo pat repl (pat.length - 1) rest
      else c :: replaceGo pat repl 0 rest

/-- Python `s.replace(pat, repl)`: every non-overlapping occurrence,
scanning left to right. -/
def pyReplace (s pat repl : String) : String :=
  ⟨replaceGo pat.toList repl.toList 0 s.toList⟩

/-- Python `s.endswith(suffix)`. -/
def pyEndsWith (s suffix : String) : Bool :=
  suffix.toList.isSuffixOf s.toList

/-- The key cell of a row: its `nct_id` value (the hardcoded `on` column
of `pd.merge`). -/
def rowKey (t : Table) (r : List FlatValue) : FlatValue :=
  getCell t.cols r "nct_id"

/-- Renaming applied to a left column by `pd.merge(..., on='nct_id',
suffixes=('_1','_2'))`: non-key columns also present on the right get the
`_1` suffix. -/
def sfx1 (d2 : Table) (c : String) : String :=
  if c ≠ "nct_id" ∧ c ∈ d2.cols then c ++ "_1" else c

/-- Renaming applied to a right non-key column: the `_2` suffix when the
name is also present on the left. -/
def sfx2 (d1 : Table) (c : String) : String :=
  if c ∈ d1.cols then c ++ "_2" else c

/-- Column names of the left table after the merge. -/
def suffixCols1 (d1 d2 : Table) : List String :=
  d1.cols.map (sfx1 d2)

/-- Column names contributed by the right table: its non-key columns,
renamed by `sfx2`. -/
def suffixCols2 (d1 d2 : Table) : List String :=
  (d2.cols.filter (fun c => decide (c ≠ "nct_id"))).map (sfx2 d1)

/-- The non-key cells of a right-table row, in column order. -/
def stripKey (cols : List String) (r : List FlatValue) : List FlatValue :=
  ((cols.zip r).filter (fun p => decide (p.1 ≠ "nct_id"))).map Prod.snd

/-- The merged rows contributed by left-table rows: each left row paired
with every right row of equal key (SQL outer-join multiplicity), or
null-padded when no right row matches. -/
def leftMergedRows (d1 d2 : Table) : List (List FlatValue) :=
  d1.rows.flatMap (fun r1 =>
    match d2.rows.filter (fun r2 => decide (rowKey d2 r2 = rowKey d1 r1)) with
    | [] => [r1 ++ List.replicate (suffixCols2 d1 d2).length FlatValue.null]
    | ms => ms.map (fun r2 => r1 ++ stripKey d2.cols r2))

/-- The merged rows contributed by right-table rows that match no left
row: nulls on the left side except the key cell. -/
def rightOnlyRows (d1 d2 : Table) : List (List FlatValue) :=
  (d2.rows.filter (fun r2 =>
      ! d1.rows.any (fun r1 => decide (rowKey d1 r1 = rowKey d2 r2)))).map
    (fun r2 =>
      d1.cols.map (fun c => if c = "nct_id" then rowKey d2 r2 else FlatValue.null)
        ++ stripKey d2.cols r2)

/-- `pd.merge(d1, d2, on='nct_id', how='outer', suffixes=('_1','_2'))`
with the default `sort=False`: left rows in order (matched right cells
attached), then unmatched right rows. -/
def mergeOuter (d1 d2 : Table) : Table :=
  ⟨suffixCols1 d1 d2 ++ suffixCols2 d1 d2,
   leftMergedRows d1 d2 ++ rightOnlyRows d1 d2⟩

/-- `merged[col_1].combine_first(merged[col_2])`: rowwise, the `_1`
value where it is non-null, else the `_2` value. -/
def combineVals (t : Table) (col : String) : List FlatValue :=
  t.rows.map (fun r =>
    let a := getCell t.cols r (col ++ "_1")
    let b := getCell t.cols r (col ++ "_2")
    if a = FlatValue.null then b else a)

/-- One iteration of the clean-up loop of `_merge_trials`: when both
suffixed columns are present, write the combined column and drop the two
suffixed ones, otherwise leave the table unchanged. -/
def combineColStep (acc : Table) (col : String) : Table :=
  if (col ++ "_1") ∈ acc.cols ∧ (col ++ "_2") ∈ acc.cols then
    dropCols (setColVals acc col (combineVals acc col)) [col ++ "_1", col ++ "_2"]
  else acc

/-- `cols_to_combine`: computed once from the merged columns — every
column ending in `_1`, with all occurrences of the substring `_1`
removed (Python `col.replace('_1', '')`). -/
def colsToCombine (m : Table) : List String :=
  (m.cols.filter (fun c => pyEndsWith c "_1")).map (fun c => pyReplace c "_1" "")

/-- The clean-up loop of `_merge_trials`. -/
def combineStep (m : Table) : Table :=
  (colsToCombine m).foldl combineColStep m

/-- `ClinicalTrialsAPI._merge_trials` (with its default and only used
`merge_type='outer'`).  The Python assigns `df1['source'] = 'dataset1'`
and `df2['source'] = 'dataset2'` in place on the caller tables before
merging; the embedding makes that explicit state passing — the caller
tables after the call are `setColScalar df1 ...` / `setColScalar df2 ...`
(see `mergeInput1After`, `mergeInput2After`).  `pd.merge` raises
`KeyError` when the `on` column is absent from either table. -/
def _merge_trials (df1 df2 : Table) : Except PyExc Table :=
  let d1 := setColScalar df1 "source" (.str "dataset1")
  let d2 := setColScalar df2 "source" (.str "dataset2")
  if "nct_id" ∈ d1.cols ∧ "nct_id" ∈ d2.cols then
    .ok (combineStep (mergeOuter d1 d2))
  else .error (.keyError "nct_id")

/-- The state of the first caller-supplied table after `_merge_trials`
returns: `df1['source'] = 'dataset1'` has been executed on it in place. -/
def mergeInput1After (df1 : Table) : Table :=
  setColScalar df1 "source" (.str "dataset1")

/-- The state of the second caller-supplied table after `_merge_trials`
returns: `df2['source'] = 'dataset2'` has been executed on it in place. -/
def mergeInput2After (df2 : Table) : Table :=
  setColScalar df2 "source" (.str "dataset2")

/-! ### `_process_response` -/

/-- `pd.DataFrame(list_of_dicts)`: columns are the record keys in order
of first appearance; a record missing a key reads as `null` in that
column. -/
def dfOfRecords (recs : List FlatRecord) : Table :=
  let cols := recs.foldl (fun acc r =>
    acc ++ ((r.map Prod.fst).filter (fun k => decide (k ∉ acc)))) []
  ⟨cols, recs.map (fun r => cols.map (fun c => (r.lookup c).getD .null))⟩

/-- Character-level shape check used by the datetime model: digits and
dashes only, at least four characters. -/
def isDateLike (s : String) : Bool :=
  decide (4 ≤ s.length) && s.toList.all (fun ch => ch.isDigit || ch = '-')

/-- Model of `pd.to_datetime(value, errors='coerce')` at the granularity
the claims need: null stays null (`NaT`), date-shaped strings parse (kept
as their string form), anything else coerces to `NaT`.  No claim depends
on the parsed representation, only on null-ness and row counts. -/
def pdToDatetime (v : FlatValue) : FlatValue :=
  match v with
  | .null => .null
  | .str s => if isDateLike s then .str s else .null
  | .int n => .int n

/-- The date-conversion tail of `_process_response`: for each of
`start_date` and `completion_date`, when the column exists, overwrite it
with its `to_datetime` image. -/
def convertDates (df : Table) : Table :=
  ["start_date", "completion_date"].foldl
    (fun acc c =>
      if (colIdx acc.cols c).isSome then
        setColVals acc c ((colAt acc c).map pdToDatetime)
      else acc) df

/-- A parsed HTTP response body: either text that `json.loads` rejects,
or a JSON object with its `studies` list (`data.get('studies', [])`) and
optional `nextPageToken`. -/
inductive ResponseBody where
  | malformed (msg : String)
  | ok (studies : List RawStudy) (nextPageToken : Option String)
deriving DecidableEq, Repr

/-- `ClinicalTrialsAPI._process_response`: decode the body, flatten every
study (a flattening `KeyError` propagates), build the DataFrame, convert
the two date columns. -/
def _process_response (body : ResponseBody) : Except PyExc Table :=
  match body with
  | .malformed msg => .error (.jsonDecodeError msg)
  | .ok studies _ => do
    let recs ← studies.mapM flatten_trial
    pure (convertDates (dfOfRecords recs))

/-! ### `fetch_trials`: pagination and retry -/

/-- One transport outcome for one `requests.get` call: either a
`RequestException` (timeout, connection failure, or the non-2xx raised
by `raise_for_status`), or a response body. -/
inductive AttemptResult where
  | transportError (msg : String)
  | response (body : ResponseBody)
deriving DecidableEq, Repr

/-- The `nextPageToken` carried by a body (only reached on bodies that
already decoded successfully). -/
def bodyToken (body : ResponseBody) : Option String :=
  match body with
  | .malformed _ => none
  | .ok _ tok => tok

/-- Python truthiness of `if not next_page_token`: `None` and the empty
string are falsy. -/
def tokenFalsy (tok : Option String) : Bool :=
  match tok with
  | none => true
  | some s => s == ""

/-- Equality of embedded run results is decidable (used by concrete
witnesses). -/
instance {ε α : Type} [DecidableEq ε] [DecidableEq α] : DecidableEq (Except ε α) :=
  fun x y =>
    match x, y with
    | .ok a, .ok b =>
      if h : a = b then .isTrue (by rw [h]) else .isFalse (fun he => h (Except.ok.inj he))
    | .error a, .error b =>
      if h : a = b then .isTrue (by rw [h]) else .isFalse (fun he => h (Except.error.inj he))
    | .ok _, .error _ => .isFalse (fun he => Except.noConfusion he)
    | .error _, .ok _ => .isFalse (fun he => Except.noConfusion he)

/-- The observable outcome of a `fetch_trials` run: the returned table or
the raised exception, the number of `requests.get` calls issued, and the
number of `time.sleep(retry_delay)` pauses taken. -/
structure RunOutcome where
  result : Except PyExc Table
  requests : Nat
  sleeps : Nat
deriving DecidableEq, Repr

/-- The `while True` / `for attempt in range(max_retries)` body of
`fetch_trials`, driven by the transport script.  Only a transport error
is retried (`except RequestException`); a processing or merge exception
propagates at once.  `attempt` is the inner loop counter, `page` the
page counter, `acc` the `all_trials` accumulator.  An empty script means
the modelled transport has no outcome left (`scriptExhausted`). -/
def fetchGo (maxRetries : Nat) (attempt : Nat) (page : Nat) (acc : Table) :
    List AttemptResult → RunOutcome
  | [] => ⟨.error .scriptExhausted, 0, 0⟩
  | .transportError msg :: rest =>
    if attempt = maxRetries - 1 then
      ⟨.error (.requestException msg), 1, 0⟩
    else
      let r := fetchGo maxRetries (attempt + 1) page acc rest
      ⟨r.result, r.requests + 1, r.sleeps + 1⟩
  | .response body :: rest =>
    match _process_response body with
    | .error e => ⟨.error e, 1, 0⟩
    | .ok current =>
      match (if page = 0 then Except.ok current else _merge_trials acc current) with
      | .error e => ⟨.error e, 1, 0⟩
      | .ok acc2 =>
        if tokenFalsy (bodyToken body) then
          ⟨.ok acc2, 1, 0⟩
        else
          let r := fetchGo maxRetries 0 (page + 1) acc2 rest
          ⟨r.result, r.requests + 1, r.sleeps⟩

/-- `ClinicalTrialsAPI.fetch_trials` run against a transport script:
starts with `all_trials = pd.DataFrame()`, `page = 0`, attempt counter
zero.  The query parameters do not influence the modelled observable
behaviour (the script already fixes each response), so they are omitted.
The model assumes `max_retries ≥ 1` (the constructor default is 5);
Python with `max_retries = 0` would spin forever without requesting. -/
def fetch_trials (maxRetries : Nat) (script : List AttemptResult) : RunOutcome :=
  fetchGo maxRetries 0 0 emptyTable script

/-- The fifteen fixed field names a flattened record can carry. -/
def schemaCols : List String :=
  ["nct_id", "org_study_id", "brief_title", "overall_status",
   "last_known_status", "start_date", "completion_date", "sponsor",
   "brief_summary", "conditions", "keywords", "enrollment_count",
   "study_type", "phase", "locations"]

/-- Column names that can appear in an accumulated or merged table: the
schema plus the provenance marker. -/
def mergeSchemaCols : List String := schemaCols ++ ["source"]

/-- The fourteen keys every flattened record starts with (all of
`schemaCols` except the conditional `locations`). -/
def flatBaseKeys : List String :=
  ["nct_id", "org_study_id", "brief_title", "overall_status",
   "last_known_status", "start_date", "completion_date", "sponsor",
   "brief_summary", "conditions", "keywords", "enrollment_count",
   "study_type", "phase"]

/-- The cellwise `combine_first` of pandas: the first value unless it is
missing. -/
def combineFirstV (a b : FlatValue) : FlatValue :=
  if a = FlatValue.null then b else a

/-- `nct_id` is unique within a table (the merge precondition stated by
the specification). -/
def uniqueKeys (t : Table) : Prop :=
  (t.rows.map (fun r => rowKey t r)).Nodup

instance (t : Table) : Decidable (uniqueKeys t) :=
  inferInstanceAs (Decidable ((t.rows.map (fun r => rowKey t r)).Nodup))

/-- The single merged row produced for a left row when right keys are
unique: the left cells followed by the matching right row's non-key
cells, or nulls when no right row matches. -/
def mergedLeft (d1 d2 : Table) (r1 : List FlatValue) : List FlatValue :=
  match d2.rows.find? (fun r2 => decide (rowKey d2 r2 = rowKey d1 r1)) with
  | some r2 => r1 ++ stripKey d2.cols r2
  | none => r1 ++ List.replicate (suffixCols2 d1 d2).length FlatValue.null

/-- The value contributed by table B to a combined cell of a row coming
from table A: B's cell in the row sharing the key, null when no row of B
shares it. -/
def bCell (df1 df2 : Table) (c : String) (r1 : List FlatValue) : FlatValue :=
  match df2.rows.find? (fun r2 => decide (rowKey df2 r2 = rowKey df1 r1)) with
  | some r2 => getCell df2.cols r2 c
  | none => FlatValue.null

/-- The shared non-key columns of the two (tagged) merge inputs, in left
order: exactly the columns the clean-up loop of `_merge_trials`
combines. -/
def sharedCols (d1 d2 : Table) : List String :=
  d1.cols.filter (fun c => decide (c ≠ "nct_id") && decide (c ∈ d2.cols))

/-- One page-fetch of a transport script: the transport errors burned
before the page's successful response, then the response body. -/
structure PageFetch where
  errs : List String
  body : ResponseBody
deriving DecidableEq, Repr

/-- The attempt outcomes a page-fetch feeds to the client. -/
def PageFetch.toScript (p : PageFetch) : List AttemptResult :=
  p.errs.map AttemptResult.transportError ++ [.response p.body]

/-- The transport script of a sequence of page-fetches. -/
def pagesScript (ps : List PageFetch) : List AttemptResult :=
  ps.flatMap PageFetch.toScript

/-- The invariant of the accumulating table across pages: schema
columns, no duplicate columns, rectangular, and the join key present. -/
def accInv (t : Table) : Prop :=
  (∀ c ∈ t.cols, c ∈ mergeSchemaCols) ∧ t.cols.Nodup ∧ t.WF ∧ "nct_id" ∈ t.cols

/-! ### Concrete instances used by counterexamples and witnesses -/

/-- A protocol section with only the three hard-required modules, all
empty inside. -/
def minimalProtocol : ProtocolSection :=
  ⟨some ⟨none, none, none⟩, some ⟨none, none, none, none⟩, some ⟨none⟩,
   none, none, none, none⟩

/-- A study that has only the three hard-required modules. -/
def minimalStudy : RawStudy := ⟨some minimalProtocol⟩

/-- A study that retains only the identification section: the protocol
section is present, every other module (including the status module) is
absent. -/
def studyOnlyIdent : RawStudy :=
  ⟨some ⟨some ⟨some "NCT0001", none, none⟩, none, none, none, none, none, none⟩⟩

/-- A well-formed study with the given nct id and no optional sections. -/
def studyNamed (id : String) : RawStudy :=
  ⟨some ⟨some ⟨some id, none, none⟩, some ⟨none, none, none, none⟩, some ⟨none⟩,
    none, none, none, none⟩⟩

/-- Transport script delivering two successful pages that carry the same
study id NCT0001: page one with a continuation token, page two without. -/
def overlappingPagesScript : List AttemptResult :=
  [.response (.ok [studyNamed "NCT0001"] (some "tokenA")),
   .response (.ok [studyNamed "NCT0001"] none)]

/-- A one-row table with only the key column. -/
def tinyTableA : Table := ⟨["nct_id"], [[.str "NCT-A"]]⟩

/-- A second one-row table with only the key column, different key. -/
def tinyTableB : Table := ⟨["nct_id"], [[.str "NCT-B"]]⟩

/-- Witness table A: a title is present, the sponsor column is absent. -/
def witTableA : Table :=
  ⟨["nct_id", "brief_title", "overall_status"],
   [[.str "NCT-1", .str "title A", .null]]⟩

/-- Witness table B: shares NCT-1, has a sponsor, a conflicting title. -/
def witTableB : Table :=
  ⟨["nct_id", "brief_title", "sponsor"],
   [[.str "NCT-1", .str "title B", .str "sponsor B"], [.str "NCT-9", .null, .str "sponsor 9"]]⟩

/-- Witness pages for the termination claim: one mid page that fails
once before succeeding with a token, and a final page without one. -/
def witPageOne : PageFetch :=
  ⟨["boom"], .ok [studyNamed "NCT0001"] (some "TOKEN")⟩

/-- The final witness page: no continuation token. -/
def witPageLast : PageFetch :=
  ⟨[], .ok [studyNamed "NCT0002"] none⟩

/-- Script entries after the final page, which the loop must not touch. -/
def witRest : List AttemptResult := [.response (.malformed "never reached")]

/-- The goodness condition on one page of a transport script. -/
def goodBody (body : ResponseBody) : Prop :=
  ∃ studies tok, body = .ok studies tok ∧ studies ≠ [] ∧
    ∀ s ∈ studies, ∃ r, flatten_trial s = Except.ok r

/-! ## Claims about the parser -/

/-- C2 (counterexample): the claim says a record that contains the
top-level protocol section never makes `flatten_trial` raise, and in
particular one retaining only the identification section flattens
without raising.  False: `studyOnlyIdent` has the protocol section and
the identification module, yet `flatten_trial` raises `KeyError` on the
bracketed access `protocol['statusModule']`. -/
theorem c2_counterexample :
    studyOnlyIdent.protocolSection.isSome = true ∧
    flatten_trial studyOnlyIdent = Except.error (PyExc.keyError "statusModule") :=
  ⟨rfl, rfl⟩

/-- C2 (amended): `flatten_trial` never raises on any record whose
protocol section is present together with its identification, status and
sponsor-collaborators modules; the absence of any of those four is the
hard failure, and no other missing section or field can raise. -/
theorem c2_flatten_total (trial : RawStudy) (p : ProtocolSection)
    (h1 : trial.protocolSection = some p)
    (h2 : p.identificationModule.isSome = true)
    (h3 : p.statusModule.isSome = true)
    (h4 : p.sponsorCollaboratorsModule.isSome = true) :
    ∃ r, flatten_trial trial = Except.ok r := by
  obtain ⟨i, hi⟩ := Option.isSome_iff_exists.mp h2
  obtain ⟨st, hst⟩ := Option.isSome_iff_exists.mp h3
  obtain ⟨sp, hsp⟩ := Option.isSome_iff_exists.mp h4
  simp only [flatten_trial, h1, hi, hst, hsp, req, bind, Except.bind]
  split
  · exact ⟨_, rfl⟩
  · exact ⟨_, rfl⟩

/-- C2 (witness): the amended theorem applied to the minimal study. -/
theorem c2_flatten_total_witness :
    (minimalStudy.protocolSection = some minimalProtocol ∧
      minimalProtocol.identificationModule.isSome = true ∧
      minimalProtocol.statusModule.isSome = true ∧
      minimalProtocol.sponsorCollaboratorsModule.isSome = true) ∧
    ∃ r, flatten_trial minimalStudy = Except.ok r :=
  ⟨by decide, c2_flatten_total minimalStudy minimalProtocol rfl rfl rfl rfl⟩

/-- C3 (counterexample): the claim says every field derived from a
missing optional section is null, never an empty string or an omitted
key.  False on the minimal study (conditions and locations sections
absent): the flattened `conditions` value is the empty string, and the
`locations` key is omitted from the record entirely. -/
theorem c3_counterexample :
    minimalProtocol.conditionsModule = none ∧
    minimalProtocol.contactsLocationsModule = none ∧
    (flatten_trial minimalStudy).toOption.map (fun r => r.lookup "conditions")
      = some (some (FlatValue.str "")) ∧
    FlatValue.str "" ≠ FlatValue.null ∧
    (flatten_trial minimalStudy).toOption.map (fun r => r.lookup "locations")
      = some none := by
  refine ⟨rfl, rfl, rfl, ?_, rfl⟩
  decide

/-- C3 (amended): with every optional section absent, the flattened
record is exactly this: fields obtained by scalar lookups under a
missing section (`brief_summary`, `enrollment_count`, `study_type`) are
null, the comma-joined fields (`conditions`, `keywords`, `phase`) are
empty strings, and the `locations` key is omitted; fields under the
present identification, status and sponsor modules use their optional
values (null when the inner field is missing). -/
theorem c3_missing_sections (trial : RawStudy) (p : ProtocolSection)
    (i : IdentificationModule) (st : StatusModule) (sp : SponsorCollaboratorsModule)
    (h1 : trial.protocolSection = some p)
    (h2 : p.identificationModule = some i)
    (h3 : p.statusModule = some st)
    (h4 : p.sponsorCollaboratorsModule = some sp)
    (hdesc : p.descriptionModule = none)
    (hcond : p.conditionsModule = none)
    (hdesign : p.designModule = none)
    (hloc : p.contactsLocationsModule = none) :
    flatten_trial trial = Except.ok [
      ("nct_id", optStr i.nctId),
      ("org_study_id", optStr (i.orgStudyIdInfo.getD .empty).id),
      ("brief_title", optStr i.briefTitle),
      ("overall_status", optStr st.overallStatus),
      ("last_known_status", optStr st.lastKnownStatus),
      ("start_date", optStr (st.startDateStruct.getD .empty).date),
      ("completion_date", optStr (st.completionDateStruct.getD .empty).date),
      ("sponsor", optStr (sp.leadSponsor.getD .empty).name),
      ("brief_summary", FlatValue.null),
      ("conditions", FlatValue.str ""),
      ("keywords", FlatValue.str ""),
      ("enrollment_count", FlatValue.null),
      ("study_type", FlatValue.null),
      ("phase", FlatValue.str "")] := by
  simp only [flatten_trial, h1, h2, h3, h4, hdesc, hcond, hdesign, hloc, req,
    bind, Except.bind, Option.getD_none, Option.getD_some]
  rfl

/-- C3 (witness): the amended theorem applied to the minimal study. -/
theorem c3_missing_sections_witness :
    (minimalStudy.protocolSection = some minimalProtocol ∧
      minimalProtocol.identificationModule = some ⟨none, none, none⟩ ∧
      minimalProtocol.statusModule = some ⟨none, none, none, none⟩ ∧
      minimalProtocol.sponsorCollaboratorsModule = some ⟨none⟩ ∧
      minimalProtocol.descriptionModule = none ∧
      minimalProtocol.conditionsModule = none ∧
      minimalProtocol.designModule = none ∧
      minimalProtocol.contactsLocationsModule = none) ∧
    flatten_trial minimalStudy = Except.ok [
      ("nct_id", FlatValue.null), ("org_study_id", FlatValue.null),
      ("brief_title", FlatValue.null), ("overall_status", FlatValue.null),
      ("last_known_status", FlatValue.null), ("start_date", FlatValue.null),
      ("completion_date", FlatValue.null), ("sponsor", FlatValue.null),
      ("brief_summary", FlatValue.null), ("conditions", FlatValue.str ""),
      ("keywords", FlatValue.str ""), ("enrollment_count", FlatValue.null),
      ("study_type", FlatValue.null), ("phase", FlatValue.str "")] :=
  ⟨by decide,
   c3_missing_sections minimalStudy minimalProtocol ⟨none, none, none⟩
     ⟨none, none, none, none⟩ ⟨none⟩ rfl rfl rfl rfl rfl rfl rfl rfl⟩

/-- C10 (confirmed): when the contacts/locations section is absent or
its locations list is empty, the flattened record has no `locations` key
at all, while `conditions`, `keywords` and `phase` (their sections also
missing) are present with empty-string values. -/
theorem c10_locations_omitted (trial : RawStudy) (p : ProtocolSection)
    (h1 : trial.protocolSection = some p)
    (h2 : p.identificationModule.isSome = true)
    (h3 : p.statusModule.isSome = true)
    (h4 : p.sponsorCollaboratorsModule.isSome = true)
    (hcond : p.conditionsModule = none)
    (hdesign : p.designModule = none)
    (hloc : (p.contactsLocationsModule.getD .empty).locations.getD [] = []) :
    ∃ r, flatten_trial trial = Except.ok r ∧
      r.lookup "locations" = none ∧
      r.lookup "conditions" = some (FlatValue.str "") ∧
      r.lookup "keywords" = some (FlatValue.str "") ∧
      r.lookup "phase" = some (FlatValue.str "") := by
  obtain ⟨i, hi⟩ := Option.isSome_iff_exists.mp h2
  obtain ⟨st, hst⟩ := Option.isSome_iff_exists.mp h3
  obtain ⟨sp, hsp⟩ := Option.isSome_iff_exists.mp h4
  have hflat : flatten_trial trial = Except.ok [
      ("nct_id", optStr i.nctId),
      ("org_study_id", optStr (i.orgStudyIdInfo.getD .empty).id),
      ("brief_title", optStr i.briefTitle),
      ("overall_status", optStr st.overallStatus),
      ("last_known_status", optStr st.lastKnownStatus),
      ("start_date", optStr (st.startDateStruct.getD .empty).date),
      ("completion_date", optStr (st.completionDateStruct.getD .empty).date),
      ("sponsor", optStr (sp.leadSponsor.getD .empty).name),
      ("brief_summary", optStr (p.descriptionModule.getD .empty).briefSummary),
      ("conditions", FlatValue.str ""),
      ("keywords", FlatValue.str ""),
      ("enrollment_count", FlatValue.null),
      ("study_type", FlatValue.null),
      ("phase", FlatValue.str "")] := by
    simp only [flatten_trial, h1, hi, hst, hsp, hcond, hdesign, hloc, req,
      bind, Except.bind, List.isEmpty_nil, if_true]
    rfl
  exact ⟨_, hflat, by simp [List.lookup], by simp [List.lookup],
    by simp [List.lookup], by simp [List.lookup]⟩

/-- C10 (witness): applied to a study whose contacts/locations module is
present but carries an empty locations list. -/
theorem c10_locations_omitted_witness :
    ((RawStudy.mk (some ⟨some ⟨none, none, none⟩, some ⟨none, none, none, none⟩,
        some ⟨none⟩, none, none, none, some ⟨some []⟩⟩)).protocolSection
      = some ⟨some ⟨none, none, none⟩, some ⟨none, none, none, none⟩,
        some ⟨none⟩, none, none, none, some ⟨some []⟩⟩) ∧
    ∃ r, flatten_trial (RawStudy.mk (some ⟨some ⟨none, none, none⟩,
        some ⟨none, none, none, none⟩, some ⟨none⟩, none, none, none,
        some ⟨some []⟩⟩)) = Except.ok r ∧
      r.lookup "locations" = none ∧
      r.lookup "conditions" = some (FlatValue.str "") ∧
      r.lookup "keywords" = some (FlatValue.str "") ∧
      r.lookup "phase" = some (FlatValue.str "") :=
  ⟨rfl, c10_locations_omitted _ _ rfl rfl rfl rfl rfl rfl rfl⟩

/-! ## Claims about retry and pagination -/

/-- The retry branch never reads the attempt counter on a response head:
the inner loop behaves identically at any attempt number once the
transport succeeds. -/
theorem fetchGo_response_attempt (mr a a2 page : Nat) (acc : Table)
    (body : ResponseBody) (rest : List AttemptResult) :
    fetchGo mr a page acc (.response body :: rest)
      = fetchGo mr a2 page acc (.response body :: rest) := rfl

/-- Unfolding one retried transport error. -/
theorem fetchGo_transport_step (mr a page : Nat) (acc : Table) (msg : String)
    (rest : List AttemptResult) (hne : ¬ (a = mr - 1)) :
    fetchGo mr a page acc (.transportError msg :: rest)
      = ⟨(fetchGo mr (a + 1) page acc rest).result,
         (fetchGo mr (a + 1) page acc rest).requests + 1,
         (fetchGo mr (a + 1) page acc rest).sleeps + 1⟩ := by
  simp only [fetchGo, if_neg hne]

/-- Unfolding the final transport error of a retry window. -/
theorem fetchGo_transport_last (mr a page : Nat) (acc : Table) (msg : String)
    (rest : List AttemptResult) (ha : a = mr - 1) :
    fetchGo mr a page acc (.transportError msg :: rest)
      = ⟨.error (.requestException msg), 1, 0⟩ := by
  simp only [fetchGo, if_pos ha]

/-- Skipping a prefix of transport errors that stays within the retry
budget: the run result is the one of the error-free run, with one extra
request and one extra sleep per error. -/
theorem fetchGo_skip_errors (mr : Nat) (errs : List String) :
    ∀ (a page : Nat) (acc : Table) (body : ResponseBody) (rest : List AttemptResult),
    a + errs.length + 1 ≤ mr →
    fetchGo mr a page acc (errs.map AttemptResult.transportError ++ .response body :: rest)
      = { result := (fetchGo mr 0 page acc (.response body :: rest)).result,
          requests := (fetchGo mr 0 page acc (.response body :: rest)).requests + errs.length,
          sleeps := (fetchGo mr 0 page acc (.response body :: rest)).sleeps + errs.length } := by
  induction errs with
  | nil =>
    intro a page acc body rest h
    rw [List.map_nil, List.nil_append, fetchGo_response_attempt mr a 0]
    simp
  | cons e es ih =>
    intro a page acc body rest h
    have hne : ¬ (a = mr - 1) := by
      simp only [List.length_cons] at h
      omega
    have h2 : a + 1 + es.length + 1 ≤ mr := by
      simp only [List.length_cons] at h
      omega
    rw [List.map_cons, List.cons_append, fetchGo_transport_step mr a page acc e _ hne,
      ih (a + 1) page acc body rest h2]
    simp only [List.length_cons, Nat.add_assoc]

/-- A full window of transport failures: the run stops with the last
error after `length + 1` requests and `length` sleeps. -/
theorem fetchGo_exhaust (mr : Nat) (init : List String) :
    ∀ (a page : Nat) (acc : Table) (elast : String) (rest : List AttemptResult),
    a + init.length + 1 = mr →
    fetchGo mr a page acc ((init ++ [elast]).map AttemptResult.transportError ++ rest)
      = ⟨.error (.requestException elast), init.length + 1, init.length⟩ := by
  induction init with
  | nil =>
    intro a page acc elast rest h
    have ha : a = mr - 1 := by
      simp only [List.length_nil] at h
      omega
    show fetchGo mr a page acc (.transportError elast :: rest) = _
    rw [fetchGo_transport_last mr a page acc elast rest ha]
    simp
  | cons e es ih =>
    intro a page acc elast rest h
    have hne : ¬ (a = mr - 1) := by
      simp only [List.length_cons] at h
      omega
    have h2 : a + 1 + es.length + 1 = mr := by
      simp only [List.length_cons] at h
      omega
    rw [List.cons_append, List.map_cons, List.cons_append,
      fetchGo_transport_step mr a page acc e _ hne,
      ih (a + 1) page acc elast rest h2]
    simp only [List.length_cons]

/-- C4 (confirmed): a transport failing N-1 times before succeeding
(N within `max_retries`) yields the same result as one succeeding
immediately; a transport failing on every attempt of the window makes
`fetch_trials` surface the last transport error unmodified, after
exactly `max_retries` requests with `max_retries - 1` fixed-delay sleeps
between them. -/
theorem c4_retry_behavior :
    (∀ (mr : Nat) (errs : List String) (body : ResponseBody) (rest : List AttemptResult),
      errs.length < mr →
      (fetch_trials mr (errs.map AttemptResult.transportError ++ .response body :: rest)).result
        = (fetch_trials mr (.response body :: rest)).result)
    ∧ (∀ (mr : Nat) (init : List String) (elast : String) (rest : List AttemptResult),
      init.length + 1 = mr →
      fetch_trials mr ((init ++ [elast]).map AttemptResult.transportError ++ rest)
        = ⟨.error (.requestException elast), mr, mr - 1⟩) := by
  constructor
  · intro mr errs body rest h
    unfold fetch_trials
    rw [fetchGo_skip_errors mr errs 0 0 emptyTable body rest (by omega)]
  · intro mr init elast rest h
    unfold fetch_trials
    rw [fetchGo_exhaust mr init 0 0 emptyTable elast rest (by omega)]
    simp only [RunOutcome.mk.injEq, true_and]
    exact ⟨by omega, by omega⟩

/-- C4 (witness): two failures then success at `max_retries = 3` matches
the immediate-success run; two failures at `max_retries = 2` surface the
second error after two requests and one sleep. -/
theorem c4_retry_behavior_witness :
    ((["boom1", "boom2"].length < 3) ∧ (["boom1"].length + 1 = 2)) ∧
    (fetch_trials 3 (["boom1", "boom2"].map AttemptResult.transportError
        ++ .response (.ok [] none) :: [])).result
      = (fetch_trials 3 (.response (.ok [] none) :: [])).result ∧
    fetch_trials 2 ((["boom1"] ++ ["boom2"]).map AttemptResult.transportError ++ [])
      = ⟨.error (.requestException "boom2"), 2, 1⟩ :=
  ⟨⟨by decide, by decide⟩,
   c4_retry_behavior.1 3 ["boom1", "boom2"] (.ok [] none) [] (by decide),
   c4_retry_behavior.2 2 ["boom1"] "boom2" [] (by decide)⟩

/-- C5 (confirmed): when the first attempt of a page returns a response
whose processing fails (unparseable JSON, or a study lacking a required
section), `fetch_trials` raises that error at once: one request issued,
no sleeps, the remaining transport script untouched. -/
theorem c5_parse_failure_no_retry (mr : Nat) (body : ResponseBody) (e : PyExc)
    (rest : List AttemptResult) (h : _process_response body = .error e) :
    fetch_trials mr (.response body :: rest) = ⟨.error e, 1, 0⟩ := by
  unfold fetch_trials
  simp only [fetchGo, h]

/-- C5 (witness): a page whose single study lacks the protocol section
propagates the `KeyError` immediately, even with retries available and
more script entries pending. -/
theorem c5_parse_failure_no_retry_witness :
    _process_response (.ok [RawStudy.mk none] none)
      = Except.error (PyExc.keyError "protocolSection") ∧
    fetch_trials 5 (.response (.ok [RawStudy.mk none] none)
        :: [.response (.ok [] none)])
      = ⟨.error (.keyError "protocolSection"), 1, 0⟩ :=
  ⟨by rfl, c5_parse_failure_no_retry 5 (.ok [RawStudy.mk none] none) _ _ (by rfl)⟩

/-! ## Table lemmas -/

/-- `colIdx` misses exactly the absent columns. -/
theorem colIdx_eq_none (cols : List String) (c : String) (h : c ∉ cols) :
    colIdx cols c = none := by
  induction cols with
  | nil => rfl
  | cons x cs ih =>
    rw [colIdx, if_neg (fun hx => h (List.mem_cons.mpr (Or.inl hx.symm))),
      ih (fun hc => h (List.mem_cons_of_mem x hc))]
    rfl

/-- A present column has an index. -/
theorem colIdx_isSome (cols : List String) (c : String) (h : c ∈ cols) :
    (colIdx cols c).isSome = true := by
  induction cols with
  | nil => exact absurd h (List.not_mem_nil c)
  | cons x cs ih =>
    by_cases hx : x = c
    · simp [colIdx, hx]
    · rw [colIdx, if_neg hx]
      cases h with
      | head => exact absurd rfl hx
      | tail _ hc => simp [ih hc]

/-- The index returned by `colIdx` is in range. -/
theorem colIdx_lt (cols : List String) (c : String) (i : Nat)
    (h : colIdx cols c = some i) : i < cols.length := by
  induction cols generalizing i with
  | nil => simp [colIdx] at h
  | cons x cs ih =>
    by_cases hx : x = c
    · simp only [colIdx, if_pos hx] at h
      simp [← Option.some_inj.mp h]
    · simp only [colIdx, if_neg hx, Option.map_eq_some'] at h
      obtain ⟨j, hj, rfl⟩ := h
      have := ih j hj
      simp only [List.length_cons]
      omega

/-- The column found by `colIdx` is the one looked up. -/
theorem colIdx_getD (cols : List String) (c d : String) (i : Nat)
    (h : colIdx cols c = some i) : cols.getD i d = c := by
  induction cols generalizing i with
  | nil => simp [colIdx] at h
  | cons x cs ih =>
    by_cases hx : x = c
    · simp only [colIdx, if_pos hx] at h
      rw [← Option.some_inj.mp h]
      simpa using hx
    · simp only [colIdx, if_neg hx, Option.map_eq_some'] at h
      obtain ⟨j, hj, rfl⟩ := h
      simpa using ih j hj

/-- Cell lookup steps through one column. -/
theorem getCell_cons (x : String) (cs : List String) (v : FlatValue)
    (r : List FlatValue) (c : String) :
    getCell (x :: cs) (v :: r) c = if x = c then v else getCell cs r c := by
  by_cases hx : x = c
  · simp [getCell, colIdx, hx]
  · simp only [getCell, colIdx, if_neg hx]
    cases h : colIdx cs c with
    | none => simp
    | some i => simp [List.getD_cons_succ]

/-- Cell lookup on an empty column list. -/
theorem getCell_nil (r : List FlatValue) (c : String) :
    getCell [] r c = .null := rfl

/-- A column not in the table reads as null. -/
theorem getCell_not_mem (cols : List String) (r : List FlatValue) (c : String)
    (h : c ∉ cols) : getCell cols r c = .null := by
  simp only [getCell, colIdx_eq_none cols c h]

/-- Cell lookup ignores a tail beyond a column present on the left. -/
theorem getCell_append_left (cols more : List String) (r r2 : List FlatValue)
    (c : String) (hc : c ∈ cols) (hlen : r.length = cols.length) :
    getCell (cols ++ more) (r ++ r2) c = getCell cols r c := by
  induction cols generalizing r with
  | nil => exact absurd hc (List.not_mem_nil c)
  | cons x cs ih =>
    cases r with
    | nil => simp at hlen
    | cons v r =>
      rw [List.cons_append, List.cons_append, getCell_cons, getCell_cons]
      by_cases hx : x = c
      · simp [hx]
      · rw [if_neg hx, if_neg hx]
        have hc2 : c ∈ cs := (List.mem_cons.mp hc).resolve_left (fun h2 => hx h2.symm)
        exact ih r hc2 (by simpa using hlen)

/-- Cell lookup passes over a left block lacking the column. -/
theorem getCell_append_right (cols more : List String) (r r2 : List FlatValue)
    (c : String) (hc : c ∉ cols) (hlen : r.length = cols.length) :
    getCell (cols ++ more) (r ++ r2) c = getCell more r2 c := by
  induction cols generalizing r with
  | nil =>
    cases r with
    | nil => rfl
    | cons v r => simp at hlen
  | cons x cs ih =>
    cases r with
    | nil => simp at hlen
    | cons v r =>
      rw [List.cons_append, List.cons_append, getCell_cons,
        if_neg (fun hx => hc (List.mem_cons.mpr (Or.inl hx.symm)))]
      exact ih r (fun h2 => hc (List.mem_cons_of_mem x h2)) (by simpa using hlen)

/-- Overwriting one cell of a row: reading the written position. -/
theorem getD_set_self (r : List FlatValue) (i : Nat) (v d : FlatValue)
    (h : i < r.length) : (r.set i v).getD i d = v := by
  induction r generalizing i with
  | nil => simp at h
  | cons a r ih =>
    cases i with
    | zero => rfl
    | succ j => exact ih j (by simpa using h)

/-- Overwriting one cell of a row: reading any other position. -/
theorem getD_set_ne (r : List FlatValue) (i j : Nat) (v d : FlatValue)
    (h : j ≠ i) : (r.set i v).getD j d = r.getD j d := by
  induction r generalizing i j with
  | nil => simp [List.set]
  | cons a r ih =>
    cases i with
    | zero =>
      cases j with
      | zero => exact absurd rfl h
      | succ j2 => rfl
    | succ i2 =>
      cases j with
      | zero => rfl
      | succ j2 => exact ih i2 j2 (fun he => h (by rw [he]))

/-- Members of a `zipWith` come from members of the two lists. -/
theorem mem_zipWith {α β γ : Type} {f : α → β → γ} {y : γ} :
    ∀ {as : List α} {bs : List β}, y ∈ List.zipWith f as bs →
      ∃ a b, a ∈ as ∧ b ∈ bs ∧ y = f a b := by
  intro as
  induction as with
  | nil => intro bs h; simp at h
  | cons a as ih =>
    intro bs h
    cases bs with
    | nil => simp at h
    | cons b bs =>
      rw [List.zipWith_cons_cons] at h
      cases List.mem_cons.mp h with
      | inl he => exact ⟨a, b, List.mem_cons_self a as, List.mem_cons_self b bs, he⟩
      | inr ht =>
        obtain ⟨a2, b2, ha, hb, he⟩ := ih ht
        exact ⟨a2, b2, List.mem_cons_of_mem a ha, List.mem_cons_of_mem b hb, he⟩

/-- Reading back the column just written, in-place branch. -/
theorem colAt_set_branch (cols : List String) (rows : List (List FlatValue))
    (vals : List FlatValue) (c : String) (i : Nat)
    (hidx : colIdx cols c = some i)
    (hwf : ∀ r ∈ rows, r.length = cols.length)
    (hlen : vals.length = rows.length) :
    (List.zipWith (fun r v => r.set i v) rows vals).map
      (fun r => getCell cols r c) = vals := by
  induction rows generalizing vals with
  | nil =>
    cases vals with
    | nil => rfl
    | cons v vs => simp at hlen
  | cons r rows ih =>
    cases vals with
    | nil => simp at hlen
    | cons v vs =>
      rw [List.zipWith_cons_cons, List.map_cons]
      have hr : r.length = cols.length := hwf r (List.mem_cons_self r rows)
      have hi : i < r.length := hr ▸ colIdx_lt cols c i hidx
      rw [show getCell cols (r.set i v) c = v by
        simp only [getCell, hidx]; exact getD_set_self r i v .null hi]
      rw [ih vs (fun r2 h2 => hwf r2 (List.mem_cons_of_mem r h2)) (by simpa using hlen)]

/-- Writing one column leaves the cells of the others alone, in-place
branch. -/
theorem colAt_set_branch_ne (cols : List String) (rows : List (List FlatValue))
    (vals : List FlatValue) (c c2 : String) (i : Nat)
    (hidx : colIdx cols c = some i) (hne : c2 ≠ c) :
    (List.zipWith (fun r v => r.set i v) rows vals).map
      (fun r => getCell cols r c2)
      = (List.zipWith (fun r (_ : FlatValue) => r) rows vals).map
          (fun r => getCell cols r c2) := by
  induction rows generalizing vals with
  | nil => rfl
  | cons r rows ih =>
    cases vals with
    | nil => rfl
    | cons v vs =>
      rw [List.zipWith_cons_cons, List.zipWith_cons_cons, List.map_cons, List.map_cons]
      have hcell : getCell cols (r.set i v) c2 = getCell cols r c2 := by
        cases h2 : colIdx cols c2 with
        | none => simp [getCell, h2]
        | some j =>
          have hji : j ≠ i := by
            intro he
            exact hne (by rw [← colIdx_getD cols c2 "" j h2, he, colIdx_getD cols c "" i hidx])
          simp only [getCell, h2]
          exact getD_set_ne r i j v .null hji
      rw [hcell, ih vs]

/-- Reading back the column just written, append branch. -/
theorem colAt_append_branch (cols : List String) (rows : List (List FlatValue))
    (vals : List FlatValue) (c : String)
    (hc : c ∉ cols)
    (hwf : ∀ r ∈ rows, r.length = cols.length)
    (hlen : vals.length = rows.length) :
    (List.zipWith (fun r v => r ++ [v]) rows vals).map
      (fun r => getCell (cols ++ [c]) r c) = vals := by
  induction rows generalizing vals with
  | nil =>
    cases vals with
    | nil => rfl
    | cons v vs => simp at hlen
  | cons r rows ih =>
    cases vals with
    | nil => simp at hlen
    | cons v vs =>
      rw [List.zipWith_cons_cons, List.map_cons]
      have hr : r.length = cols.length := hwf r (List.mem_cons_self r rows)
      rw [getCell_append_right cols [c] r [v] c hc hr,
        show getCell [c] [v] c = v by simp [getCell_cons]]
      rw [ih vs (fun r2 h2 => hwf r2 (List.mem_cons_of_mem r h2)) (by simpa using hlen)]

/-- Appending a fresh column leaves the cells of the others alone. -/
theorem colAt_append_branch_ne (cols : List String) (rows : List (List FlatValue))
    (vals : List FlatValue) (c c2 : String)
    (hc : c ∉ cols) (hne : c2 ≠ c)
    (hwf : ∀ r ∈ rows, r.length = cols.length) :
    (List.zipWith (fun r v => r ++ [v]) rows vals).map
      (fun r => getCell (cols ++ [c]) r c2)
      = (List.zipWith (fun r (_ : FlatValue) => r) rows vals).map
          (fun r => getCell cols r c2) := by
  induction rows generalizing vals with
  | nil => rfl
  | cons r rows ih =>
    cases vals with
    | nil => rfl
    | cons v vs =>
      rw [List.zipWith_cons_cons, List.zipWith_cons_cons, List.map_cons, List.map_cons]
      have hr : r.length = cols.length := hwf r (List.mem_cons_self r rows)
      have hcell : getCell (cols ++ [c]) (r ++ [v]) c2 = getCell cols r c2 := by
        by_cases h2 : c2 ∈ cols
        · exact getCell_append_left cols [c] r [v] c2 h2 hr
        · rw [getCell_append_right cols [c] r [v] c2 h2 hr,
            getCell_not_mem cols r c2 h2, getCell_cons,
            if_neg (fun he : c = c2 => hne he.symm)]
          rfl
      rw [hcell, ih vs (fun r2 hm => hwf r2 (List.mem_cons_of_mem r hm))]

/-- When the rows and values zip exactly, dropping the values recovers
the rows. -/
theorem zipWith_fst (rows : List (List FlatValue)) (vals : List FlatValue)
    (hlen : vals.length = rows.length) :
    List.zipWith (fun r (_ : FlatValue) => r) rows vals = rows := by
  induction rows generalizing vals with
  | nil => rfl
  | cons r rows ih =>
    cases vals with
    | nil => simp at hlen
    | cons v vs =>
      rw [List.zipWith_cons_cons, ih vs (by simpa using hlen)]

/-- Reading back a written column. -/
theorem colAt_setColVals_self (t : Table) (c : String) (vals : List FlatValue)
    (hwf : t.WF) (hlen : vals.length = t.rows.length) :
    colAt (setColVals t c vals) c = vals := by
  cases h : colIdx t.cols c with
  | some i =>
    simp only [setColVals, h, colAt]
    exact colAt_set_branch t.cols t.rows vals c i h hwf hlen
  | none =>
    have hc : c ∉ t.cols := by
      intro hm
      have hs := colIdx_isSome t.cols c hm
      rw [h] at hs
      exact Bool.noConfusion hs
    simp only [setColVals, h, colAt]
    exact colAt_append_branch t.cols t.rows vals c hc hwf hlen

/-- Writing one column leaves every other column unchanged. -/
theorem colAt_setColVals_ne (t : Table) (c c2 : String) (vals : List FlatValue)
    (hwf : t.WF) (hlen : vals.length = t.rows.length) (hne : c2 ≠ c) :
    colAt (setColVals t c vals) c2 = colAt t c2 := by
  cases h : colIdx t.cols c with
  | some i =>
    simp only [setColVals, h, colAt]
    rw [colAt_set_branch_ne t.cols t.rows vals c c2 i h hne, zipWith_fst t.rows vals hlen]
  | none =>
    have hc : c ∉ t.cols := by
      intro hm
      have := colIdx_isSome t.cols c hm
      rw [h] at this
      exact Bool.noConfusion this
    simp only [setColVals, h, colAt]
    rw [colAt_append_branch_ne t.cols t.rows vals c c2 hc hne hwf,
      zipWith_fst t.rows vals hlen]

/-- Writing a column preserves the row count. -/
theorem setColVals_rows_length (t : Table) (c : String) (vals : List FlatValue)
    (hlen : vals.length = t.rows.length) :
    (setColVals t c vals).rows.length = t.rows.length := by
  cases h : colIdx t.cols c <;>
    simp [setColVals, h, List.length_zipWith, hlen]

/-- Writing a column preserves rectangularity. -/
theorem setColVals_WF (t : Table) (c : String) (vals : List FlatValue)
    (hwf : t.WF) : (setColVals t c vals).WF := by
  cases h : colIdx t.cols c with
  | some i =>
    intro r hr
    simp only [setColVals, h] at hr ⊢
    obtain ⟨a, b, ha, _, he⟩ := mem_zipWith hr
    rw [he, List.length_set]
    exact hwf a ha
  | none =>
    intro r hr
    simp only [setColVals, h] at hr ⊢
    obtain ⟨a, b, ha, _, he⟩ := mem_zipWith hr
    rw [he]
    simp [hwf a ha]

/-- Writing an absent column appends its name. -/
theorem setColVals_cols_of_not_mem (t : Table) (c : String) (vals : List FlatValue)
    (h : c ∉ t.cols) : (setColVals t c vals).cols = t.cols ++ [c] := by
  simp [setColVals, colIdx_eq_none t.cols c h]

/-- Writing an existing column keeps the column list. -/
theorem setColVals_cols_of_mem (t : Table) (c : String) (vals : List FlatValue)
    (h : c ∈ t.cols) : (setColVals t c vals).cols = t.cols := by
  obtain ⟨i, hi⟩ := Option.isSome_iff_exists.mp (colIdx_isSome t.cols c h)
  simp [setColVals, hi]

/-- Reading back a broadcast scalar column. -/
theorem colAt_setColScalar_self (t : Table) (c : String) (v : FlatValue)
    (hwf : t.WF) :
    colAt (setColScalar t c v) c = List.replicate t.rows.length v :=
  colAt_setColVals_self t c _ hwf (List.length_replicate _ _)

/-- Broadcasting a scalar leaves other columns unchanged. -/
theorem colAt_setColScalar_ne (t : Table) (c c2 : String) (v : FlatValue)
    (hwf : t.WF) (hne : c2 ≠ c) :
    colAt (setColScalar t c v) c2 = colAt t c2 :=
  colAt_setColVals_ne t c c2 _ hwf (List.length_replicate _ _) hne

/-- Broadcasting a scalar preserves the row count. -/
theorem setColScalar_rows_length (t : Table) (c : String) (v : FlatValue) :
    (setColScalar t c v).rows.length = t.rows.length :=
  setColVals_rows_length t c _ (List.length_replicate _ _)

/-- Broadcasting a scalar preserves rectangularity. -/
theorem setColScalar_WF (t : Table) (c : String) (v : FlatValue)
    (hwf : t.WF) : (setColScalar t c v).WF :=
  setColVals_WF t c _ hwf

/-! ## Claims about the merge operation -/

/-- C9 (confirmed): `_merge_trials` writes the provenance column into
both caller-supplied tables in place before joining — after the call,
every row of input one carries `source = dataset1` and every row of
input two carries `source = dataset2` (overwriting any existing
`source` column) — so an input that did not already carry that exact
column comes back changed. -/
theorem c9_merge_mutates_inputs (df1 df2 : Table) (hwf1 : df1.WF) (hwf2 : df2.WF) :
    colAt (mergeInput1After df1) "source"
      = List.replicate df1.rows.length (FlatValue.str "dataset1") ∧
    colAt (mergeInput2After df2) "source"
      = List.replicate df2.rows.length (FlatValue.str "dataset2") ∧
    ("source" ∉ df1.cols → mergeInput1After df1 ≠ df1) ∧
    ("source" ∉ df2.cols → mergeInput2After df2 ≠ df2) := by
  refine ⟨colAt_setColScalar_self df1 "source" _ hwf1,
    colAt_setColScalar_self df2 "source" _ hwf2, ?_, ?_⟩
  · intro hs heq
    have hcols := congrArg Table.cols heq
    rw [show (mergeInput1After df1).cols = df1.cols ++ ["source"] from
      setColVals_cols_of_not_mem df1 "source" _ hs] at hcols
    have := congrArg List.length hcols
    simp at this
  · intro hs heq
    have hcols := congrArg Table.cols heq
    rw [show (mergeInput2After df2).cols = df2.cols ++ ["source"] from
      setColVals_cols_of_not_mem df2 "source" _ hs] at hcols
    have := congrArg List.length hcols
    simp at this

/-- C9 (witness): the mutation observed on the two concrete witness
tables. -/
theorem c9_merge_mutates_inputs_witness :
    (witTableA.WF ∧ witTableB.WF) ∧
    (colAt (mergeInput1After witTableA) "source"
        = List.replicate witTableA.rows.length (FlatValue.str "dataset1") ∧
      colAt (mergeInput2After witTableB) "source"
        = List.replicate witTableB.rows.length (FlatValue.str "dataset2") ∧
      ("source" ∉ witTableA.cols → mergeInput1After witTableA ≠ witTableA) ∧
      ("source" ∉ witTableB.cols → mergeInput2After witTableB ≠ witTableB)) :=
  ⟨⟨by decide, by decide⟩,
   c9_merge_mutates_inputs witTableA witTableB (by decide) (by decide)⟩

/-- C1 (counterexample): the claim says pages are row-concatenated, so a
two-page run returns as many rows as the two pages hold studies.  False:
the code merges pages through `_merge_trials` (outer join on `nct_id`),
so two single-study pages carrying the same `nct_id` collapse into one
row — 1 row, not 1 + 1. -/
theorem c1_counterexample :
    overlappingPagesScript
      = [.response (.ok [studyNamed "NCT0001"] (some "tokenA")),
         .response (.ok [studyNamed "NCT0001"] none)] ∧
    (fetch_trials 5 overlappingPagesScript).result.map (fun t => t.rows.length)
      = Except.ok 1 ∧
    (1 : Nat) ≠ 1 + 1 :=
  ⟨rfl, by rfl, by decide⟩

/-- C7 (counterexample): the claim says the provenance marker survives
the merge as two separate columns.  False: after tagging, `source` is a
column of both sides, so the join suffixes it to `source_1` / `source_2`,
and the clean-up loop combines and drops the pair — the output of the
concrete merge has a single `source` column and neither suffixed one. -/
theorem c7_counterexample :
    _merge_trials tinyTableA tinyTableB
      = Except.ok ⟨["nct_id", "source"],
          [[FlatValue.str "NCT-A", FlatValue.str "dataset1"],
           [FlatValue.str "NCT-B", FlatValue.str "dataset2"]]⟩ ∧
    "source_1" ∉ (["nct_id", "source"] : List String) ∧
    "source_2" ∉ (["nct_id", "source"] : List String) :=
  ⟨by rfl, by decide, by decide⟩

/-! ## Lemmas for the merge machinery -/

/-- Filtering the zipped row by a column predicate keeps as many cells
as the filtered column list has names. -/
theorem zip_filter_length (cols : List String) (r : List FlatValue)
    (p : String → Bool) (hlen : r.length = cols.length) :
    (((cols.zip r).filter (fun q => p q.1)).map Prod.snd).length
      = (cols.filter p).length := by
  induction cols generalizing r with
  | nil => rfl
  | cons x cs ih =>
    cases r with
    | nil => simp at hlen
    | cons v rs =>
      rw [List.zip_cons_cons, List.filter_cons, List.filter_cons]
      cases hp : p x <;> simp_all

/-- Reading a kept column through the zip-filter row surgery. -/
theorem getCell_zip_filter (cols : List String) (r : List FlatValue)
    (p : String → Bool) (c : String) (hc : p c = true)
    (hlen : r.length = cols.length) :
    getCell (cols.filter p) (((cols.zip r).filter (fun q => p q.1)).map Prod.snd) c
      = getCell cols r c := by
  induction cols generalizing r with
  | nil => rfl
  | cons x cs ih =>
    cases r with
    | nil => simp at hlen
    | cons v rs =>
      rw [List.zip_cons_cons, List.filter_cons, List.filter_cons]
      by_cases hp : p x = true
      · rw [if_pos hp, if_pos hp, List.map_cons, getCell_cons, getCell_cons]
        by_cases hx : x = c
        · simp [hx]
        · rw [if_neg hx, if_neg hx, ih rs (by simpa using hlen)]
      · rw [if_neg hp, if_neg hp, getCell_cons,
          if_neg (fun hx : x = c => hp (hx ▸ hc)), ih rs (by simpa using hlen)]

/-- Membership in the dropped-columns table. -/
theorem mem_dropCols_cols (t : Table) (names : List String) (c : String) :
    c ∈ (dropCols t names).cols ↔ c ∈ t.cols ∧ c ∉ names := by
  simp [dropCols, List.mem_filter]

/-- Dropping columns preserves the row count. -/
theorem dropCols_rows_length (t : Table) (names : List String) :
    (dropCols t names).rows.length = t.rows.length := by
  simp [dropCols]

/-- Dropping columns preserves rectangularity. -/
theorem dropCols_WF (t : Table) (names : List String) (hwf : t.WF) :
    (dropCols t names).WF := by
  intro r hr
  simp only [dropCols, List.mem_map] at hr
  obtain ⟨r0, hr0, he⟩ := hr
  simp only [dropCols]
  rw [← he]
  exact zip_filter_length t.cols r0 (fun c => decide (c ∉ names)) (hwf r0 hr0)

/-- Dropping other columns does not change the cells of a kept one. -/
theorem colAt_dropCols (t : Table) (names : List String) (c : String)
    (hc : c ∉ names) (hwf : t.WF) :
    colAt (dropCols t names) c = colAt t c := by
  simp only [colAt, dropCols, List.map_map]
  apply List.map_congr_left
  intro r hr
  exact getCell_zip_filter t.cols r _ c (by simpa using hc) (hwf r hr)

/-- Dropping columns keeps the column list Nodup. -/
theorem dropCols_nodup (t : Table) (names : List String) (hnd : t.cols.Nodup) :
    (dropCols t names).cols.Nodup :=
  List.Nodup.filter _ hnd

/-- Reading any position of a replicated null row gives null. -/
theorem getD_replicate_null (n i : Nat) :
    (List.replicate n FlatValue.null).getD i FlatValue.null = FlatValue.null := by
  induction n generalizing i with
  | zero => rfl
  | succ m ih =>
    cases i with
    | zero => rfl
    | succ j => exact ih j

/-- A row of nulls reads null in every column. -/
theorem getCell_replicate_null (cols : List String) (n : Nat) (c : String) :
    getCell cols (List.replicate n FlatValue.null) c = FlatValue.null := by
  unfold getCell
  cases h : colIdx cols c with
  | none => rfl
  | some i => exact getD_replicate_null n i

/-- Zipping two maps of the same list is a map of the combined
function. -/
theorem zipWith_map_same {α β γ δ : Type} (f : β → γ → δ) (g : α → β)
    (h : α → γ) (l : List α) :
    List.zipWith f (l.map g) (l.map h) = l.map (fun x => f (g x) (h x)) := by
  induction l with
  | nil => rfl
  | cons a l ih => simp [ih]

/-- Zipping against a replicate of the right length is a map. -/
theorem zipWith_replicate_right {α β γ : Type} (f : α → β → γ) (l : List α)
    (v : β) :
    List.zipWith f l (List.replicate l.length v) = l.map (fun x => f x v) := by
  induction l with
  | nil => rfl
  | cons a l ih => simp [List.replicate_succ, ih]

/-- `find?` only looks at the predicate values on the list. -/
theorem find?_congr {α : Type} (l : List α) (p q : α → Bool)
    (h : ∀ x ∈ l, p x = q x) : l.find? p = l.find? q := by
  induction l with
  | nil => rfl
  | cons a l ih =>
    rw [List.find?_cons, List.find?_cons, h a (List.mem_cons_self a l)]
    cases q a with
    | true => rfl
    | false => exact ih (fun x hx => h x (List.mem_cons_of_mem a hx))

/-- When a key function is duplicate-free on a list, filtering by one
key value finds at most one element: the one `find?` returns. -/
theorem key_filter_find (rows : List (List FlatValue))
    (g : List FlatValue → FlatValue) (v : FlatValue)
    (hnd : (rows.map g).Nodup) :
    rows.filter (fun r => decide (g r = v))
      = match rows.find? (fun r => decide (g r = v)) with
        | some r => [r]
        | none => [] := by
  induction rows with
  | nil => rfl
  | cons r rows ih =>
    rw [List.map_cons, List.nodup_cons] at hnd
    rw [List.filter_cons, List.find?_cons]
    by_cases hp : g r = v
    · rw [if_pos (by simpa using hp)]
      have hrest : rows.filter (fun r2 => decide (g r2 = v)) = [] := by
        rw [List.filter_eq_nil_iff]
        intro r2 hr2 hp2
        exact hnd.1 (by
          rw [show g r = g r2 from by rw [hp, decide_eq_true_eq.mp hp2]]
          exact List.mem_map_of_mem g hr2)
      rw [hrest]
      simp [hp]
    · rw [if_neg (by simpa using hp)]
      have : (decide (g r = v)) = false := by simpa using hp
      rw [this]
      exact ih hnd.2

/-! ## Decidable facts about the fixed schema names -/

/-- No schema name ends with a merge suffix, suffixed names do, and the
Python replace of `_1` recovers the base name. -/
theorem schema_suffix_shape :
    ∀ a ∈ mergeSchemaCols,
      pyEndsWith a "_1" = false ∧
      pyEndsWith (a ++ "_2") "_1" = false ∧
      pyEndsWith (a ++ "_1") "_1" = true ∧
      pyReplace (a ++ "_1") "_1" "" = a := by decide

/-- Suffixed schema names collide neither with plain schema names nor
across different bases or different suffixes. -/
theorem schema_suffix_ne :
    ∀ a ∈ mergeSchemaCols, ∀ b ∈ mergeSchemaCols,
      a ++ "_1" ≠ b ∧ a ++ "_2" ≠ b ∧ a ++ "_1" ≠ b ++ "_2" ∧
      (a ++ "_1" = b ++ "_1" → a = b) ∧ (a ++ "_2" = b ++ "_2" → a = b) := by decide

/-- The fifteen schema names are distinct, none is `source`, `nct_id`
and `source` are in the extended schema, and the base keys list is the
schema without `locations`. -/
theorem schema_basic :
    schemaCols.Nodup ∧ mergeSchemaCols.Nodup ∧ "source" ∉ schemaCols ∧
    "nct_id" ∈ mergeSchemaCols ∧ "source" ∈ mergeSchemaCols ∧
    flatBaseKeys ++ ["locations"] = schemaCols ∧ flatBaseKeys.Nodup ∧
    "nct_id" ∈ flatBaseKeys ∧
    (∀ c ∈ schemaCols, c ∈ mergeSchemaCols) ∧
    (∀ c ∈ flatBaseKeys, c ∈ schemaCols) := by decide

/-! ## Lemmas about the outer merge -/

/-- `colIdx` commutes with an injective column renaming. -/
theorem colIdx_map_of_inj (cols : List String) (f : String → String) (c : String)
    (hinj : ∀ x ∈ cols, f x = f c → x = c) :
    colIdx (cols.map f) (f c) = colIdx cols c := by
  induction cols with
  | nil => rfl
  | cons x cs ih =>
    rw [List.map_cons, colIdx, colIdx]
    by_cases hx : x = c
    · rw [if_pos (by rw [hx]), if_pos hx]
    · rw [if_neg (fun he => hx (hinj x (List.mem_cons_self x cs) he)), if_neg hx,
        ih (fun y hy he => hinj y (List.mem_cons_of_mem x hy) he)]

/-- Cell lookup through an injective column renaming. -/
theorem getCell_map_rename (cols : List String) (r : List FlatValue)
    (f : String → String) (c : String)
    (hinj : ∀ x ∈ cols, f x = f c → x = c) :
    getCell (cols.map f) r (f c) = getCell cols r c := by
  unfold getCell
  rw [colIdx_map_of_inj cols f c hinj]

/-- The left renaming is injective on schema names. -/
theorem sfx1_inj (d2 : Table) (x c : String) (hx : x ∈ mergeSchemaCols)
    (hcs : c ∈ mergeSchemaCols) (h : sfx1 d2 x = sfx1 d2 c) : x = c := by
  unfold sfx1 at h
  by_cases h1 : x ≠ "nct_id" ∧ x ∈ d2.cols <;>
    by_cases h2 : c ≠ "nct_id" ∧ c ∈ d2.cols
  · rw [if_pos h1, if_pos h2] at h
    exact (schema_suffix_ne x hx c hcs).2.2.2.1 h
  · rw [if_pos h1, if_neg h2] at h
    exact absurd h (schema_suffix_ne x hx c hcs).1
  · rw [if_neg h1, if_pos h2] at h
    exact absurd h.symm (schema_suffix_ne c hcs x hx).1
  · rw [if_neg h1, if_neg h2] at h
    exact h

/-- The right renaming is injective on schema names. -/
theorem sfx2_inj (d1 : Table) (x c : String) (hx : x ∈ mergeSchemaCols)
    (hcs : c ∈ mergeSchemaCols) (h : sfx2 d1 x = sfx2 d1 c) : x = c := by
  unfold sfx2 at h
  by_cases h1 : x ∈ d1.cols <;> by_cases h2 : c ∈ d1.cols
  · rw [if_pos h1, if_pos h2] at h
    exact (schema_suffix_ne x hx c hcs).2.2.2.2 h
  · rw [if_pos h1, if_neg h2] at h
    exact absurd h (schema_suffix_ne x hx c hcs).2.1
  · rw [if_neg h1, if_pos h2] at h
    exact absurd h.symm (schema_suffix_ne c hcs x hx).2.1
  · rw [if_neg h1, if_neg h2] at h
    exact h

/-- A left-renamed name never equals a right-renamed name, for schema
columns. -/
theorem sfx1_ne_sfx2 (d1 d2 : Table) (x y : String) (hx : x ∈ mergeSchemaCols)
    (hy : y ∈ mergeSchemaCols) (hxd : x ∈ d1.cols) (hynk : y ≠ "nct_id") :
    sfx1 d2 x ≠ sfx2 d1 y := by
  unfold sfx1 sfx2
  by_cases h1 : x ≠ "nct_id" ∧ x ∈ d2.cols <;> by_cases h2 : y ∈ d1.cols
  · rw [if_pos h1, if_pos h2]
    exact (schema_suffix_ne x hx y hy).2.2.1
  · rw [if_pos h1, if_neg h2]
    exact (schema_suffix_ne x hx y hy).1
  · rw [if_neg h1, if_pos h2]
    intro he
    exact (schema_suffix_ne y hy x hx).2.1 he.symm
  · rw [if_neg h1, if_neg h2]
    intro he
    exact h2 (he ▸ hxd)

/-- The merged column list, unfolded. -/
theorem mergeOuter_cols (d1 d2 : Table) :
    (mergeOuter d1 d2).cols = suffixCols1 d1 d2 ++ suffixCols2 d1 d2 := rfl

/-- The merged column list is duplicate-free for schema tables. -/
theorem mergeOuter_cols_nodup (d1 d2 : Table)
    (hs1 : ∀ c ∈ d1.cols, c ∈ mergeSchemaCols)
    (hs2 : ∀ c ∈ d2.cols, c ∈ mergeSchemaCols)
    (hnd1 : d1.cols.Nodup) (hnd2 : d2.cols.Nodup) :
    (mergeOuter d1 d2).cols.Nodup := by
  rw [mergeOuter_cols]
  refine List.Nodup.append ?_ ?_ ?_
  · exact List.Nodup.map_on
      (fun x hx y hy he => (sfx1_inj d2 x y (hs1 x hx) (hs1 y hy) he).symm ▸ rfl) hnd1
  · refine List.Nodup.map_on ?_ (List.Nodup.filter _ hnd2)
    intro x hx y hy he
    have hx2 := hs2 x (List.mem_of_mem_filter hx)
    have hy2 := hs2 y (List.mem_of_mem_filter hy)
    exact sfx2_inj d1 x y hx2 hy2 he
  · intro n hn1 hn2
    rw [suffixCols1, List.mem_map] at hn1
    rw [suffixCols2, List.mem_map] at hn2
    obtain ⟨x, hx, hex⟩ := hn1
    obtain ⟨y, hy, hey⟩ := hn2
    have hyk : y ≠ "nct_id" := by
      have := List.of_mem_filter hy
      simpa using this
    exact sfx1_ne_sfx2 d1 d2 x y (hs1 x hx) (hs2 y (List.mem_of_mem_filter hy)) hx hyk
      (hex.trans hey.symm)

/-- The non-key cells of a right row are as many as the right non-key
columns. -/
theorem stripKey_length (cols : List String) (r : List FlatValue)
    (hlen : r.length = cols.length) :
    (stripKey cols r).length = (cols.filter (fun c => decide (c ≠ "nct_id"))).length := by
  unfold stripKey
  exact zip_filter_length cols r (fun c => decide (c ≠ "nct_id")) hlen

/-- A flat map of singletons is a map. -/
theorem flatMap_eq_map_of_singleton {α β : Type} (l : List α) (g : α → List β)
    (f : α → β) (h : ∀ x ∈ l, g x = [f x]) : l.flatMap g = l.map f := by
  induction l with
  | nil => rfl
  | cons a l ih =>
    rw [List.flatMap_cons, h a (List.mem_cons_self a l), List.map_cons,
      ih (fun x hx => h x (List.mem_cons_of_mem a hx))]
    rfl

/-- With unique right keys, the left part of the merge is one row per
left row. -/
theorem leftMergedRows_eq_map (d1 d2 : Table) (hu2 : uniqueKeys d2) :
    leftMergedRows d1 d2 = d1.rows.map (mergedLeft d1 d2) := by
  unfold leftMergedRows
  refine flatMap_eq_map_of_singleton _ _ _ ?_
  intro r1 _
  rw [key_filter_find d2.rows _ _ hu2]
  unfold mergedLeft
  cases hf : d2.rows.find? (fun r2 => decide (rowKey d2 r2 = rowKey d1 r1)) with
  | some r2 => simp
  | none => simp

/-- The merged row of a left row keeps the left width plus the right
non-key width. -/
theorem mergedLeft_length (d1 d2 : Table) (r1 : List FlatValue)
    (hr1 : r1.length = d1.cols.length) (hwf2 : d2.WF) :
    (mergedLeft d1 d2 r1).length = d1.cols.length + (suffixCols2 d1 d2).length := by
  unfold mergedLeft
  cases hf : d2.rows.find? (fun r2 => decide (rowKey d2 r2 = rowKey d1 r1)) with
  | some r2 =>
    have hr2 : r2 ∈ d2.rows := List.mem_of_find?_eq_some hf
    rw [List.length_append, hr1, stripKey_length d2.cols r2 (hwf2 r2 hr2)]
    simp [suffixCols2]
  | none =>
    rw [List.length_append, hr1, List.length_replicate]

/-- The merged table is rectangular when its inputs are. -/
theorem mergeOuter_WF (d1 d2 : Table) (hwf1 : d1.WF) (hwf2 : d2.WF) :
    (mergeOuter d1 d2).WF := by
  intro r hr
  have hcols : (mergeOuter d1 d2).cols.length
      = d1.cols.length + (suffixCols2 d1 d2).length := by
    rw [mergeOuter_cols, List.length_append, suffixCols1, List.length_map]
  rw [hcols]
  rcases List.mem_append.mp hr with hl | hrr
  · unfold leftMergedRows at hl
    rw [List.mem_flatMap] at hl
    obtain ⟨r1, hr1, hm⟩ := hl
    have hlen1 : r1.length = d1.cols.length := hwf1 r1 hr1
    cases hfil : d2.rows.filter (fun r2 => decide (rowKey d2 r2 = rowKey d1 r1)) with
    | nil =>
      rw [hfil] at hm
      rcases List.mem_singleton.mp hm with rfl
      rw [List.length_append, hlen1, List.length_replicate]
    | cons m ms =>
      rw [hfil, List.mem_map] at hm
      obtain ⟨r2, hr2m, he⟩ := hm
      have hr2 : r2 ∈ d2.rows := by
        have : r2 ∈ d2.rows.filter (fun r2 => decide (rowKey d2 r2 = rowKey d1 r1)) := by
          rw [hfil]
          exact hr2m
        exact List.mem_of_mem_filter this
      rw [← he, List.length_append, hlen1, stripKey_length d2.cols r2 (hwf2 r2 hr2)]
      simp [suffixCols2]
  · unfold rightOnlyRows at hrr
    rw [List.mem_map] at hrr
    obtain ⟨r2, hr2f, he⟩ := hrr
    have hr2 : r2 ∈ d2.rows := List.mem_of_mem_filter hr2f
    rw [← he, List.length_append, List.length_map,
      stripKey_length d2.cols r2 (hwf2 r2 hr2)]
    simp [suffixCols2]

/-- The row count of the merge when the two key sets are disjoint: an
outer join without matches keeps every row of both sides. -/
theorem mergeOuter_rows_length_disjoint (d1 d2 : Table)
    (hdisj : ∀ r1 ∈ d1.rows, ∀ r2 ∈ d2.rows, rowKey d2 r2 ≠ rowKey d1 r1) :
    (mergeOuter d1 d2).rows.length = d1.rows.length + d2.rows.length := by
  show (leftMergedRows d1 d2 ++ rightOnlyRows d1 d2).length = _
  rw [List.length_append]
  have hl : leftMergedRows d1 d2
      = d1.rows.map (fun r1 => r1 ++ List.replicate (suffixCols2 d1 d2).length FlatValue.null) := by
    unfold leftMergedRows
    refine flatMap_eq_map_of_singleton _ _ _ ?_
    intro r1 hr1
    have : d2.rows.filter (fun r2 => decide (rowKey d2 r2 = rowKey d1 r1)) = [] := by
      rw [List.filter_eq_nil_iff]
      intro r2 hr2
      simpa using hdisj r1 hr1 r2 hr2
    rw [this]
  have hr : rightOnlyRows d1 d2
      = d2.rows.map (fun r2 =>
          d1.cols.map (fun c => if c = "nct_id" then rowKey d2 r2 else FlatValue.null)
            ++ stripKey d2.cols r2) := by
    unfold rightOnlyRows
    congr 1
    rw [List.filter_eq_self]
    intro r2 hr2
    simp only [Bool.not_eq_eq_eq_not, Bool.not_true, List.any_eq_false]
    intro r1 hr1
    have hne := hdisj r1 hr1 r2 hr2
    simp only [decide_eq_true_eq]
    exact fun he => hne he.symm
  rw [hl, hr, List.length_map, List.length_map]

/-- Reading a (renamed) left column of a merged left row gives the left
cell. -/
theorem getCell_mergedLeft_left (d1 d2 : Table) (r1 : List FlatValue) (c : String)
    (hc : c ∈ d1.cols)
    (hs1 : ∀ x ∈ d1.cols, x ∈ mergeSchemaCols)
    (hr1 : r1.length = d1.cols.length) :
    getCell (mergeOuter d1 d2).cols (mergedLeft d1 d2 r1) (sfx1 d2 c)
      = getCell d1.cols r1 c := by
  obtain ⟨t, ht⟩ : ∃ t, mergedLeft d1 d2 r1 = r1 ++ t := by
    unfold mergedLeft
    cases d2.rows.find? (fun r2 => decide (rowKey d2 r2 = rowKey d1 r1)) with
    | some r2 => exact ⟨_, rfl⟩
    | none => exact ⟨_, rfl⟩
  rw [ht, mergeOuter_cols, suffixCols1,
    getCell_append_left (d1.cols.map (sfx1 d2)) _ r1 t (sfx1 d2 c)
      (List.mem_map_of_mem (sfx1 d2) hc) (by rw [hr1, List.length_map]),
    getCell_map_rename d1.cols r1 (sfx1 d2) c
      (fun x hx he => sfx1_inj d2 x c (hs1 x hx) (hs1 c (hc)) he)]

/-- Reading the `_2`-renamed copy of a column shared by both inputs, on
a merged left row: the matching right cell, or null without a match. -/
theorem getCell_mergedLeft_right (d1 d2 : Table) (r1 : List FlatValue) (c : String)
    (hc1 : c ∈ d1.cols) (hc2 : c ∈ d2.cols) (hck : c ≠ "nct_id")
    (hs1 : ∀ x ∈ d1.cols, x ∈ mergeSchemaCols)
    (hs2 : ∀ x ∈ d2.cols, x ∈ mergeSchemaCols)
    (hr1 : r1.length = d1.cols.length) (hwf2 : d2.WF) :
    getCell (mergeOuter d1 d2).cols (mergedLeft d1 d2 r1) (c ++ "_2")
      = bCell d1 d2 c r1 := by
  have hcs : c ∈ mergeSchemaCols := hs1 c hc1
  have hnotleft : (c ++ "_2") ∉ suffixCols1 d1 d2 := by
    rw [suffixCols1, List.mem_map]
    rintro ⟨x, hx, hex⟩
    have hxs : x ∈ mergeSchemaCols := hs1 x hx
    unfold sfx1 at hex
    by_cases h1 : x ≠ "nct_id" ∧ x ∈ d2.cols
    · rw [if_pos h1] at hex
      exact (schema_suffix_ne x hxs c hcs).2.2.1 hex
    · rw [if_neg h1] at hex
      exact (schema_suffix_ne c hcs x hxs).2.1 hex.symm
  unfold mergedLeft bCell
  cases hf : d2.rows.find? (fun r2 => decide (rowKey d2 r2 = rowKey d1 r1)) with
  | some r2 =>
    have hr2 : r2 ∈ d2.rows := List.mem_of_find?_eq_some hf
    have hr2len : r2.length = d2.cols.length := hwf2 r2 hr2
    rw [mergeOuter_cols,
      getCell_append_right (suffixCols1 d1 d2) (suffixCols2 d1 d2) r1 _ (c ++ "_2")
        hnotleft (by rw [hr1, suffixCols1, List.length_map])]
    have hsfx : sfx2 d1 c = c ++ "_2" := by
      unfold sfx2
      rw [if_pos hc1]
    have hcf : c ∈ d2.cols.filter (fun x => decide (x ≠ "nct_id")) := by
      rw [List.mem_filter]
      exact ⟨hc2, by simpa using hck⟩
    have hren := getCell_map_rename (d2.cols.filter (fun x => decide (x ≠ "nct_id")))
      (stripKey d2.cols r2) (sfx2 d1) c
      (fun x hx he => sfx2_inj d1 x c (hs2 x (List.mem_of_mem_filter hx)) hcs he)
    rw [hsfx] at hren
    rw [suffixCols2, hren]
    unfold stripKey
    exact getCell_zip_filter d2.cols r2 (fun x => decide (x ≠ "nct_id")) c
      (by simpa using hck) hr2len
  | none =>
    rw [mergeOuter_cols,
      getCell_append_right (suffixCols1 d1 d2) (suffixCols2 d1 d2) r1 _ (c ++ "_2")
        hnotleft (by rw [hr1, suffixCols1, List.length_map]),
      getCell_replicate_null]

/-- Reading a column unique to the right input, on a merged left row:
the matching right cell, or null without a match. -/
theorem getCell_mergedLeft_bonly (d1 d2 : Table) (r1 : List FlatValue) (c : String)
    (hc1 : c ∉ d1.cols) (hc2 : c ∈ d2.cols) (hck : c ≠ "nct_id")
    (hs1 : ∀ x ∈ d1.cols, x ∈ mergeSchemaCols)
    (hs2 : ∀ x ∈ d2.cols, x ∈ mergeSchemaCols)
    (hr1 : r1.length = d1.cols.length) (hwf2 : d2.WF) :
    getCell (mergeOuter d1 d2).cols (mergedLeft d1 d2 r1) c
      = bCell d1 d2 c r1 := by
  have hcs : c ∈ mergeSchemaCols := hs2 c hc2
  have hnotleft : c ∉ suffixCols1 d1 d2 := by
    rw [suffixCols1, List.mem_map]
    rintro ⟨x, hx, hex⟩
    have hxs : x ∈ mergeSchemaCols := hs1 x hx
    unfold sfx1 at hex
    by_cases h1 : x ≠ "nct_id" ∧ x ∈ d2.cols
    · rw [if_pos h1] at hex
      exact (schema_suffix_ne x hxs c hcs).1 hex
    · rw [if_neg h1] at hex
      exact hc1 (hex ▸ hx)
  have hsfx : sfx2 d1 c = c := by
    unfold sfx2
    rw [if_neg hc1]
  unfold mergedLeft bCell
  cases hf : d2.rows.find? (fun r2 => decide (rowKey d2 r2 = rowKey d1 r1)) with
  | some r2 =>
    have hr2 : r2 ∈ d2.rows := List.mem_of_find?_eq_some hf
    have hr2len : r2.length = d2.cols.length := hwf2 r2 hr2
    rw [mergeOuter_cols,
      getCell_append_right (suffixCols1 d1 d2) (suffixCols2 d1 d2) r1 _ c
        hnotleft (by rw [hr1, suffixCols1, List.length_map])]
    have hcf : c ∈ d2.cols.filter (fun x => decide (x ≠ "nct_id")) := by
      rw [List.mem_filter]
      exact ⟨hc2, by simpa using hck⟩
    have hren := getCell_map_rename (d2.cols.filter (fun x => decide (x ≠ "nct_id")))
      (stripKey d2.cols r2) (sfx2 d1) c
      (fun x hx he => sfx2_inj d1 x c (hs2 x (List.mem_of_mem_filter hx)) hcs he)
    rw [hsfx] at hren
    rw [suffixCols2, hren]
    unfold stripKey
    exact getCell_zip_filter d2.cols r2 (fun x => decide (x ≠ "nct_id")) c
      (by simpa using hck) hr2len
  | none =>
    rw [mergeOuter_cols,
      getCell_append_right (suffixCols1 d1 d2) (suffixCols2 d1 d2) r1 _ c
        hnotleft (by rw [hr1, suffixCols1, List.length_map]),
      getCell_replicate_null]

/-! ## Lemmas about the clean-up fold of `_merge_trials` -/

/-- A plain schema name is never a `_1`-suffixed schema name. -/
theorem sch_plain_ne_sfx1 (a b : String) (ha : a ∈ mergeSchemaCols)
    (hb : b ∈ mergeSchemaCols) : b ≠ a ++ "_1" :=
  fun he => (schema_suffix_ne a ha b hb).1 he.symm

/-- A plain schema name is never a `_2`-suffixed schema name. -/
theorem sch_plain_ne_sfx2 (a b : String) (ha : a ∈ mergeSchemaCols)
    (hb : b ∈ mergeSchemaCols) : b ≠ a ++ "_2" :=
  fun he => (schema_suffix_ne a ha b hb).2.1 he.symm

/-- `_1`-suffixing is injective on schema names. -/
theorem sch_sfx1_inj (a b : String) (ha : a ∈ mergeSchemaCols)
    (hb : b ∈ mergeSchemaCols) (h : a ++ "_1" = b ++ "_1") : a = b :=
  (schema_suffix_ne a ha b hb).2.2.2.1 h

/-- `_2`-suffixing is injective on schema names. -/
theorem sch_sfx2_inj (a b : String) (ha : a ∈ mergeSchemaCols)
    (hb : b ∈ mergeSchemaCols) (h : a ++ "_2" = b ++ "_2") : a = b :=
  (schema_suffix_ne a ha b hb).2.2.2.2 h

/-- A `_1`-suffixed schema name differs from any `_2`-suffixed one. -/
theorem sch_sfx1_ne_sfx2 (a b : String) (ha : a ∈ mergeSchemaCols)
    (hb : b ∈ mergeSchemaCols) : a ++ "_1" ≠ b ++ "_2" :=
  (schema_suffix_ne a ha b hb).2.2.1

/-- The combined column values are the pointwise `combine_first` of the
two suffixed columns. -/
theorem combineVals_eq (t : Table) (col : String) :
    combineVals t col
      = List.zipWith combineFirstV (colAt t (col ++ "_1")) (colAt t (col ++ "_2")) := by
  rw [colAt, colAt, zipWith_map_same]
  rfl

/-- The length of the combined column equals the row count. -/
theorem combineVals_length (t : Table) (col : String) :
    (combineVals t col).length = t.rows.length :=
  List.length_map _ _

/-- One clean-up step with both suffixed columns present. -/
theorem combineColStep_eq (t : Table) (col : String)
    (h1 : (col ++ "_1") ∈ t.cols) (h2 : (col ++ "_2") ∈ t.cols) :
    combineColStep t col
      = dropCols (setColVals t col (combineVals t col)) [col ++ "_1", col ++ "_2"] := by
  unfold combineColStep
  rw [if_pos ⟨h1, h2⟩]

/-- A column present before a write stays present. -/
theorem mem_setColVals_cols_of_mem (t : Table) (c c2 : String)
    (vals : List FlatValue) (h : c2 ∈ t.cols) : c2 ∈ (setColVals t c vals).cols := by
  cases hidx : colIdx t.cols c with
  | some i => simpa [setColVals, hidx] using h
  | none =>
    simp only [setColVals, hidx]
    exact List.mem_append_left _ h

/-- The full specification of the clean-up fold: every processed column
appears combined (its suffixed pair dropped and its values the pointwise
`combine_first` of the pair), untouched columns pass through with their
cells intact, no other column appears, and shape invariants hold. -/
theorem combine_fold_spec (L : List String) :
    ∀ (m : Table),
    (∀ col ∈ L, (col ++ "_1") ∈ m.cols ∧ (col ++ "_2") ∈ m.cols ∧ col ∉ m.cols) →
    L.Nodup →
    (∀ col ∈ L, col ∈ mergeSchemaCols) →
    m.cols.Nodup → m.WF →
    ((L.foldl combineColStep m).cols.Nodup ∧ (L.foldl combineColStep m).WF ∧
      (L.foldl combineColStep m).rows.length = m.rows.length) ∧
    (∀ col ∈ L, col ∈ (L.foldl combineColStep m).cols ∧
      (col ++ "_1") ∉ (L.foldl combineColStep m).cols ∧
      (col ++ "_2") ∉ (L.foldl combineColStep m).cols ∧
      colAt (L.foldl combineColStep m) col
        = List.zipWith combineFirstV (colAt m (col ++ "_1")) (colAt m (col ++ "_2"))) ∧
    (∀ c ∈ m.cols, (∀ col ∈ L, c ≠ col ++ "_1" ∧ c ≠ col ++ "_2") →
      c ∈ (L.foldl combineColStep m).cols ∧
      colAt (L.foldl combineColStep m) c = colAt m c) ∧
    (∀ c ∈ (L.foldl combineColStep m).cols,
      (c ∈ m.cols ∧ (∀ col ∈ L, c ≠ col ++ "_1" ∧ c ≠ col ++ "_2")) ∨ c ∈ L) := by
  induction L with
  | nil =>
    intro m _ _ _ hmnd hmwf
    refine ⟨⟨hmnd, hmwf, rfl⟩, ?_, ?_, ?_⟩
    · intro col hcol
      exact absurd hcol (List.not_mem_nil col)
    · intro c hc _
      exact ⟨hc, rfl⟩
    · intro c hc
      exact Or.inl ⟨hc, fun col hcol => absurd hcol (List.not_mem_nil col)⟩
  | cons col L ih =>
    intro m hL hnd hsch hmnd hmwf
    obtain ⟨hcol1, hcol2, hcolnot⟩ := hL col (List.mem_cons_self col L)
    have hcols : col ∈ mergeSchemaCols := hsch col (List.mem_cons_self col L)
    have hcolL : col ∉ L := (List.nodup_cons.mp hnd).1
    have hndL : L.Nodup := (List.nodup_cons.mp hnd).2
    have hvlen : (combineVals m col).length = m.rows.length := combineVals_length m col
    -- the written-then-dropped table of this step
    have hstep : (col :: L).foldl combineColStep m
        = L.foldl combineColStep
            (dropCols (setColVals m col (combineVals m col)) [col ++ "_1", col ++ "_2"]) := by
      rw [List.foldl_cons, combineColStep_eq m col hcol1 hcol2]
    set t1 := setColVals m col (combineVals m col) with ht1
    set acc := dropCols t1 [col ++ "_1", col ++ "_2"] with hacc
    have ht1cols : t1.cols = m.cols ++ [col] :=
      setColVals_cols_of_not_mem m col _ hcolnot
    have ht1wf : t1.WF := setColVals_WF m col _ hmwf
    have ht1nd : t1.cols.Nodup := by
      rw [ht1cols]
      refine List.Nodup.append hmnd (List.nodup_singleton col) ?_
      intro a ha ha2
      rw [List.mem_singleton] at ha2
      exact hcolnot (ha2 ▸ ha)
    have ht1len : t1.rows.length = m.rows.length :=
      setColVals_rows_length m col _ hvlen
    have haccnd : acc.cols.Nodup := dropCols_nodup t1 _ ht1nd
    have haccwf : acc.WF := dropCols_WF t1 _ ht1wf
    have hacclen : acc.rows.length = m.rows.length := by
      rw [hacc, dropCols_rows_length, ht1len]
    have hmemacc : ∀ c, c ∈ acc.cols ↔ (c ∈ m.cols ∨ c = col) ∧
        (c ≠ col ++ "_1" ∧ c ≠ col ++ "_2") := by
      intro c
      rw [hacc, mem_dropCols_cols, ht1cols, List.mem_append, List.mem_singleton]
      constructor
      · rintro ⟨hm, hn⟩
        refine ⟨hm, ?_, ?_⟩
        · intro he
          exact hn (he ▸ List.mem_cons_self _ _)
        · intro he
          exact hn (he ▸ List.mem_cons_of_mem _ (List.mem_cons_self _ _))
      · rintro ⟨hm, h1, h2⟩
        refine ⟨hm, ?_⟩
        intro hn
        rcases List.mem_cons.mp hn with he | he
        · exact h1 he
        · rw [List.mem_singleton] at he
          exact h2 he
    have hcolAtacc : ∀ c, c ≠ col ++ "_1" → c ≠ col ++ "_2" → c ≠ col →
        colAt acc c = colAt m c := by
      intro c hne1 hne2 hnec
      rw [hacc, colAt_dropCols t1 _ c (by
          intro hm2
          rcases List.mem_cons.mp hm2 with he | he
          · exact hne1 he
          · rw [List.mem_singleton] at he
            exact hne2 he) ht1wf,
        ht1, colAt_setColVals_ne m col c _ hmwf hvlen hnec]
    have hcolAtacc_col : colAt acc col
        = List.zipWith combineFirstV (colAt m (col ++ "_1")) (colAt m (col ++ "_2")) := by
      rw [hacc, colAt_dropCols t1 _ col (by
          intro hm2
          rcases List.mem_cons.mp hm2 with he | he
          · exact sch_plain_ne_sfx1 col col hcols hcols he
          · rw [List.mem_singleton] at he
            exact sch_plain_ne_sfx2 col col hcols hcols he) ht1wf,
        ht1, colAt_setColVals_self m col _ hmwf hvlen, combineVals_eq]
    -- hypotheses for the recursive call on acc
    have hLacc : ∀ col2 ∈ L, (col2 ++ "_1") ∈ acc.cols ∧ (col2 ++ "_2") ∈ acc.cols ∧
        col2 ∉ acc.cols := by
      intro col2 hcol2L
      have hc2s : col2 ∈ mergeSchemaCols := hsch col2 (List.mem_cons_of_mem col hcol2L)
      have hc2ne : col2 ≠ col := by
        intro he
        exact hcolL (he ▸ hcol2L)
      obtain ⟨hm1, hm2, hmn⟩ := hL col2 (List.mem_cons_of_mem col hcol2L)
      refine ⟨?_, ?_, ?_⟩
      · rw [hmemacc]
        exact ⟨Or.inl hm1,
          fun he => hc2ne (sch_sfx1_inj col2 col hc2s hcols he),
          sch_sfx1_ne_sfx2 col2 col hc2s hcols⟩
      · rw [hmemacc]
        exact ⟨Or.inl hm2,
          fun he => sch_sfx1_ne_sfx2 col col2 hcols hc2s he.symm,
          fun he => hc2ne (sch_sfx2_inj col2 col hc2s hcols he)⟩
      · rw [hmemacc]
        rintro ⟨hm, _, _⟩
        rcases hm with hm | hm
        · exact hmn hm
        · exact hc2ne hm
    have hschL : ∀ col2 ∈ L, col2 ∈ mergeSchemaCols :=
      fun col2 h2 => hsch col2 (List.mem_cons_of_mem col h2)
    obtain ⟨⟨hnd2, hwf2, hlen2⟩, hproc, hkeep, hco⟩ := ih acc hLacc hndL hschL haccnd haccwf
    rw [hstep]
    refine ⟨⟨hnd2, hwf2, by rw [hlen2, hacclen]⟩, ?_, ?_, ?_⟩
    · -- processed columns: col itself plus the tail
      intro col2 hcol2
      rcases List.mem_cons.mp hcol2 with rfl | hcol2L
      · -- the column processed this step
        have hcolacc : col2 ∈ acc.cols := by
          rw [hmemacc]
          exact ⟨Or.inr rfl, sch_plain_ne_sfx1 col2 col2 hcols hcols,
            sch_plain_ne_sfx2 col2 col2 hcols hcols⟩
        have hdiseq : ∀ col3 ∈ L, col2 ≠ col3 ++ "_1" ∧ col2 ≠ col3 ++ "_2" :=
          fun col3 h3 => ⟨sch_plain_ne_sfx1 col3 col2 (hschL col3 h3) hcols,
            sch_plain_ne_sfx2 col3 col2 (hschL col3 h3) hcols⟩
        obtain ⟨hmem, hcolsAt⟩ := hkeep col2 hcolacc hdiseq
        refine ⟨hmem, ?_, ?_, by rw [hcolsAt, hcolAtacc_col]⟩
        · intro hbad
          rcases hco _ hbad with ⟨hin, _⟩ | hin
          · rw [hmemacc] at hin
            exact hin.2.1 rfl
          · exact sch_plain_ne_sfx1 col2 (col2 ++ "_1") hcols
              (hschL _ hin) rfl
        · intro hbad
          rcases hco _ hbad with ⟨hin, _⟩ | hin
          · rw [hmemacc] at hin
            exact hin.2.2 rfl
          · exact sch_plain_ne_sfx2 col2 (col2 ++ "_2") hcols
              (hschL _ hin) rfl
      · -- a column processed later
        have hc2s : col2 ∈ mergeSchemaCols := hschL col2 hcol2L
        have hc2ne : col2 ≠ col := fun he => hcolL (he ▸ hcol2L)
        obtain ⟨hmem, hn1, hn2, hvals⟩ := hproc col2 hcol2L
        refine ⟨hmem, hn1, hn2, ?_⟩
        rw [hvals,
          hcolAtacc (col2 ++ "_1")
            (fun he => hc2ne (sch_sfx1_inj col2 col hc2s hcols he))
            (sch_sfx1_ne_sfx2 col2 col hc2s hcols)
            (Ne.symm (sch_plain_ne_sfx1 col2 col hc2s hcols)),
          hcolAtacc (col2 ++ "_2")
            (fun he => sch_sfx1_ne_sfx2 col col2 hcols hc2s he.symm)
            (fun he => hc2ne (sch_sfx2_inj col2 col hc2s hcols he))
            (Ne.symm (sch_plain_ne_sfx2 col2 col hc2s hcols))]
    · -- untouched columns pass through
      intro c hc hdis
      have hhead := hdis col (List.mem_cons_self col L)
      have hcneqcol : c ≠ col := fun he => hcolnot (he ▸ hc)
      have hcacc : c ∈ acc.cols := by
        rw [hmemacc]
        exact ⟨Or.inl hc, hhead.1, hhead.2⟩
      have hdisL : ∀ col2 ∈ L, c ≠ col2 ++ "_1" ∧ c ≠ col2 ++ "_2" :=
        fun col2 h2 => hdis col2 (List.mem_cons_of_mem col h2)
      obtain ⟨hmem, hAt⟩ := hkeep c hcacc hdisL
      exact ⟨hmem, by rw [hAt, hcolAtacc c hhead.1 hhead.2 hcneqcol]⟩
    · -- every output column is accounted for
      intro c hc
      rcases hco c hc with ⟨hin, hdisL⟩ | hin
      · rw [hmemacc] at hin
        obtain ⟨hm, h1, h2⟩ := hin
        rcases hm with hm | rfl
        · refine Or.inl ⟨hm, ?_⟩
          intro col2 h2m
          rcases List.mem_cons.mp h2m with rfl | h2L
          · exact ⟨h1, h2⟩
          · exact hdisL col2 h2L
        · exact Or.inr (List.mem_cons_self _ _)
      · exact Or.inr (List.mem_cons_of_mem col hin)

/-! ## Lemmas about `_process_response` -/

/-- A successful `mapM` of the flattener: as many records as studies,
each record the image of some study. -/
theorem mapM_flatten_ok (studies : List RawStudy) :
    ∀ (recs : List FlatRecord), studies.mapM flatten_trial = Except.ok recs →
      recs.length = studies.length ∧
      ∀ r ∈ recs, ∃ s ∈ studies, flatten_trial s = Except.ok r := by
  induction studies with
  | nil =>
    intro recs h
    rw [List.mapM_nil] at h
    cases h
    exact ⟨rfl, fun r hr => absurd hr (List.not_mem_nil r)⟩
  | cons s studies ih =>
    intro recs h
    rw [List.mapM_cons] at h
    cases hs : flatten_trial s with
    | error e =>
      rw [hs] at h
      exact Except.noConfusion h
    | ok r0 =>
      rw [hs] at h
      cases hm : studies.mapM flatten_trial with
      | error e =>
        rw [hm] at h
        exact Except.noConfusion h
      | ok recs0 =>
        rw [hm] at h
        have h2 : Except.ok (r0 :: recs0) = Except.ok recs := h
        have : r0 :: recs0 = recs := Except.ok.inj h2
        obtain ⟨hlen, hmem⟩ := ih recs0 hm
        rw [← this]
        refine ⟨by simp [hlen], ?_⟩
        intro r hr
        rcases List.mem_cons.mp hr with rfl | hr2
        · exact ⟨s, List.mem_cons_self s studies, hs⟩
        · obtain ⟨s2, hs2, he2⟩ := hmem r hr2
          exact ⟨s2, List.mem_cons_of_mem s hs2, he2⟩

/-- The keys of a flattened record, in order: the fourteen base keys,
plus `locations` when the record has locations. -/
theorem flatten_keys (s : RawStudy) (r : FlatRecord)
    (h : flatten_trial s = Except.ok r) :
    r.map Prod.fst = flatBaseKeys ∨ r.map Prod.fst = flatBaseKeys ++ ["locations"] := by
  unfold flatten_trial at h
  cases hp : s.protocolSection with
  | none =>
    rw [hp] at h
    exact Except.noConfusion h
  | some p =>
    rw [hp] at h
    cases hi : p.identificationModule with
    | none =>
      simp only [hi, req, bind, Except.bind] at h
      exact Except.noConfusion h
    | some i =>
      cases hst : p.statusModule with
      | none =>
        simp only [hi, hst, req, bind, Except.bind] at h
        exact Except.noConfusion h
      | some st =>
        cases hsp : p.sponsorCollaboratorsModule with
        | none =>
          simp only [hi, hst, hsp, req, bind, Except.bind] at h
          exact Except.noConfusion h
        | some sp =>
          simp only [hi, hst, hsp, req, bind, Except.bind, pure, Except.pure] at h
          split at h
          · left
            injection h with h2
            rw [← h2]
            rfl
          · right
            injection h with h2
            rw [← h2]
            rfl

/-- The column fold of `pd.DataFrame` keeps its accumulator
duplicate-free. -/
theorem cols_foldl_nodup (recs : List FlatRecord) :
    ∀ (acc : List String), acc.Nodup →
      (∀ r ∈ recs, (r.map Prod.fst).Nodup) →
      (recs.foldl (fun acc r =>
        acc ++ ((r.map Prod.fst).filter (fun k => decide (k ∉ acc)))) acc).Nodup := by
  induction recs with
  | nil => exact fun acc h _ => h
  | cons r recs ih =>
    intro acc hacc hrec
    rw [List.foldl_cons]
    refine ih _ ?_ (fun r2 h2 => hrec r2 (List.mem_cons_of_mem r h2))
    refine List.Nodup.append hacc
      (List.Nodup.filter _ (hrec r (List.mem_cons_self r recs))) ?_
    intro a ha ha2
    have := List.of_mem_filter ha2
    rw [decide_eq_true_eq] at this
    exact this ha

/-- Every column the fold produces comes from the accumulator or from
one of the records. -/
theorem cols_foldl_subset (recs : List FlatRecord) (c : String) :
    ∀ (acc : List String),
      c ∈ recs.foldl (fun acc r =>
        acc ++ ((r.map Prod.fst).filter (fun k => decide (k ∉ acc)))) acc →
      c ∈ acc ∨ ∃ r ∈ recs, c ∈ r.map Prod.fst := by
  induction recs with
  | nil => exact fun acc h => Or.inl h
  | cons r recs ih =>
    intro acc h
    rw [List.foldl_cons] at h
    rcases ih _ h with hin | ⟨r2, hr2, hc2⟩
    · rcases List.mem_append.mp hin with ha | hf
      · exact Or.inl ha
      · exact Or.inr ⟨r, List.mem_cons_self r recs, List.mem_of_mem_filter hf⟩
    · exact Or.inr ⟨r2, List.mem_cons_of_mem r hr2, hc2⟩

/-- The fold never loses accumulator columns. -/
theorem cols_foldl_mono (recs : List FlatRecord) (c : String) :
    ∀ (acc : List String), c ∈ acc →
      c ∈ recs.foldl (fun acc r =>
        acc ++ ((r.map Prod.fst).filter (fun k => decide (k ∉ acc)))) acc := by
  induction recs with
  | nil => exact fun acc h => h
  | cons r recs ih =>
    intro acc h
    rw [List.foldl_cons]
    exact ih _ (List.mem_append_left _ h)

/-- The date-conversion step on one column: table shape preserved. -/
theorem dateStep_props (t : Table) (c : String) :
    (if (colIdx t.cols c).isSome then
        setColVals t c ((colAt t c).map pdToDatetime) else t).cols = t.cols ∧
    (if (colIdx t.cols c).isSome then
        setColVals t c ((colAt t c).map pdToDatetime) else t).rows.length
      = t.rows.length ∧
    (t.WF → (if (colIdx t.cols c).isSome then
        setColVals t c ((colAt t c).map pdToDatetime) else t).WF) := by
  split
  case isTrue hidx =>
    obtain ⟨i, hi⟩ := Option.isSome_iff_exists.mp hidx
    have hmem : c ∈ t.cols := by
      have hlt := colIdx_lt t.cols c i hi
      have hge := colIdx_getD t.cols c "" i hi
      rw [List.getD_eq_getElem t.cols "" hlt] at hge
      exact hge ▸ List.getElem_mem hlt
    have hvlen : ((colAt t c).map pdToDatetime).length = t.rows.length := by
      simp [colAt]
    exact ⟨setColVals_cols_of_mem t c _ hmem,
      setColVals_rows_length t c _ hvlen,
      fun hwf => setColVals_WF t c _ hwf⟩
  case isFalse => exact ⟨rfl, rfl, fun hwf => hwf⟩

/-- Date conversion preserves the table shape. -/
theorem convertDates_props (t : Table) :
    (convertDates t).cols = t.cols ∧
    (convertDates t).rows.length = t.rows.length ∧
    (t.WF → (convertDates t).WF) := by
  have h1 := dateStep_props t "start_date"
  set t1 := (if (colIdx t.cols "start_date").isSome then
      setColVals t "start_date" ((colAt t "start_date").map pdToDatetime) else t) with ht1
  have h2 := dateStep_props t1 "completion_date"
  have hcd : convertDates t
      = (if (colIdx t1.cols "completion_date").isSome then
          setColVals t1 "completion_date" ((colAt t1 "completion_date").map pdToDatetime)
        else t1) := by
    rfl
  rw [hcd]
  exact ⟨h2.1.trans h1.1, h2.2.1.trans h1.2.1, fun hwf => h2.2.2 (h1.2.2 hwf)⟩

/-- A successfully processed page: its table is rectangular, has as many
rows as studies, duplicate-free schema columns, and carries `nct_id`
when the page is nonempty. -/
theorem process_ok_props (studies : List RawStudy) (tok : Option String) (t : Table)
    (h : _process_response (.ok studies tok) = Except.ok t) :
    t.rows.length = studies.length ∧ t.WF ∧
    (∀ c ∈ t.cols, c ∈ schemaCols) ∧ t.cols.Nodup ∧
    (studies ≠ [] → "nct_id" ∈ t.cols) := by
  unfold _process_response at h
  simp only [bind, Except.bind] at h
  cases hm : studies.mapM flatten_trial with
  | error e => rw [hm] at h; exact Except.noConfusion h
  | ok recs =>
    rw [hm] at h
    have ht : t = convertDates (dfOfRecords recs) := by
      cases h
      rfl
    obtain ⟨hlen, hmem⟩ := mapM_flatten_ok studies recs hm
    have hkeysub : ∀ r ∈ recs, ∀ k ∈ r.map Prod.fst, k ∈ schemaCols := by
      intro r hr k hk
      obtain ⟨s, _, hfl⟩ := hmem r hr
      rcases flatten_keys s r hfl with hko | hko
      · rw [hko] at hk
        exact schema_basic.2.2.2.2.2.2.2.2.2 k hk
      · rw [hko, schema_basic.2.2.2.2.2.1] at hk
        exact hk
    have hkeynd : ∀ r ∈ recs, (r.map Prod.fst).Nodup := by
      intro r hr
      rcases flatten_keys _ r (hmem r hr).choose_spec.2 with hko | hko
      · rw [hko]
        exact schema_basic.2.2.2.2.2.2.1
      · rw [hko, schema_basic.2.2.2.2.2.1]
        exact schema_basic.1
    obtain ⟨hccols, hclen, hcwf⟩ := convertDates_props (dfOfRecords recs)
    have hdfWF : (dfOfRecords recs).WF := by
      intro r hr
      simp only [dfOfRecords, List.mem_map] at hr ⊢
      obtain ⟨r0, _, he⟩ := hr
      rw [← he, List.length_map]
    have hdflen : (dfOfRecords recs).rows.length = recs.length := by
      simp [dfOfRecords]
    refine ⟨?_, ?_, ?_, ?_, ?_⟩
    · rw [ht, hclen, hdflen, hlen]
    · rw [ht]
      exact hcwf hdfWF
    · intro c hc
      rw [ht, hccols] at hc
      rcases cols_foldl_subset recs c [] hc with hin | ⟨r, hr, hcr⟩
      · exact absurd hin (List.not_mem_nil c)
      · exact hkeysub r hr c hcr
    · rw [ht, hccols]
      exact cols_foldl_nodup recs [] List.nodup_nil hkeynd
    · intro hne
      rw [ht, hccols]
      cases recs with
      | nil =>
        rw [List.length_nil] at hlen
        cases studies with
        | nil => exact absurd rfl hne
        | cons a l => simp at hlen
      | cons r0 recs0 =>
        show "nct_id" ∈ (r0 :: recs0).foldl _ []
        rw [List.foldl_cons]
        refine cols_foldl_mono recs0 "nct_id" _ ?_
        rw [List.nil_append]
        have hk0 : "nct_id" ∈ r0.map Prod.fst := by
          rcases flatten_keys _ r0 (hmem r0 (List.mem_cons_self r0 recs0)).choose_spec.2
            with hko | hko
          · rw [hko]
            exact schema_basic.2.2.2.2.2.2.2.1
          · rw [hko]
            exact List.mem_append_left _ schema_basic.2.2.2.2.2.2.2.1
        rw [List.mem_filter]
        exact ⟨hk0, by simp⟩

/-! ## Wiring the clean-up fold to the merged table -/

/-- Membership in the shared columns. -/
theorem mem_sharedCols (d1 d2 : Table) (c : String) :
    c ∈ sharedCols d1 d2 ↔ c ∈ d1.cols ∧ c ≠ "nct_id" ∧ c ∈ d2.cols := by
  simp [sharedCols, List.mem_filter, and_assoc]

/-- The shared column list inherits Nodup from the left input. -/
theorem sharedCols_nodup (d1 d2 : Table) (hnd1 : d1.cols.Nodup) :
    (sharedCols d1 d2).Nodup :=
  List.Nodup.filter _ hnd1

/-- `cols_to_combine` of the merged table is exactly the shared column
list, for schema tables. -/
theorem colsToCombine_mergeOuter (d1 d2 : Table)
    (hs1 : ∀ c ∈ d1.cols, c ∈ mergeSchemaCols)
    (hs2 : ∀ c ∈ d2.cols, c ∈ mergeSchemaCols) :
    colsToCombine (mergeOuter d1 d2) = sharedCols d1 d2 := by
  unfold colsToCombine
  rw [mergeOuter_cols, List.filter_append, List.map_append]
  have h2 : (suffixCols2 d1 d2).filter (fun c => pyEndsWith c "_1") = [] := by
    rw [List.filter_eq_nil_iff]
    intro n hn
    rw [suffixCols2, List.mem_map] at hn
    obtain ⟨y, hy, hey⟩ := hn
    have hys : y ∈ mergeSchemaCols := hs2 y (List.mem_of_mem_filter hy)
    rw [← hey]
    unfold sfx2
    by_cases h3 : y ∈ d1.cols
    · rw [if_pos h3]
      simp [(schema_suffix_shape y hys).2.1]
    · rw [if_neg h3]
      simp [(schema_suffix_shape y hys).1]
  rw [h2, List.map_nil, List.append_nil]
  unfold suffixCols1 sharedCols
  have key : ∀ (cols : List String), (∀ c ∈ cols, c ∈ mergeSchemaCols) →
      ((cols.map (sfx1 d2)).filter (fun c => pyEndsWith c "_1")).map
        (fun c => pyReplace c "_1" "")
      = cols.filter (fun c => decide (c ≠ "nct_id") && decide (c ∈ d2.cols)) := by
    intro cols
    induction cols with
    | nil => intro _; rfl
    | cons x cs ihc =>
      intro hsub
      have hxs : x ∈ mergeSchemaCols := hsub x (List.mem_cons_self x cs)
      rw [List.map_cons, List.filter_cons, List.filter_cons]
      by_cases hx : x ≠ "nct_id" ∧ x ∈ d2.cols
      · rw [show sfx1 d2 x = x ++ "_1" from by unfold sfx1; rw [if_pos hx],
          if_pos (schema_suffix_shape x hxs).2.2.1,
          if_pos (by
            rw [decide_eq_true (by exact hx.1), decide_eq_true (by exact hx.2)]
            rfl),
          List.map_cons, (schema_suffix_shape x hxs).2.2.2,
          ihc (fun c hc => hsub c (List.mem_cons_of_mem x hc))]
      · rw [show sfx1 d2 x = x from by unfold sfx1; rw [if_neg hx],
          if_neg (by rw [(schema_suffix_shape x hxs).1]; exact Bool.false_ne_true),
          if_neg (by
            intro hb
            rw [Bool.and_eq_true, decide_eq_true_eq, decide_eq_true_eq] at hb
            exact hx hb),
          ihc (fun c hc => hsub c (List.mem_cons_of_mem x hc))]
  exact key d1.cols hs1

/-- `nct_id` keeps its own name through the left renaming. -/
theorem sfx1_key (d2 : Table) : sfx1 d2 "nct_id" = "nct_id" := by
  unfold sfx1
  rw [if_neg (fun h => h.1 rfl)]

/-- The fold hypotheses hold for the merged table and its shared
columns. -/
theorem fold_hyps_mergeOuter (d1 d2 : Table)
    (hs1 : ∀ c ∈ d1.cols, c ∈ mergeSchemaCols)
    (hs2 : ∀ c ∈ d2.cols, c ∈ mergeSchemaCols) :
    ∀ col ∈ sharedCols d1 d2,
      (col ++ "_1") ∈ (mergeOuter d1 d2).cols ∧
      (col ++ "_2") ∈ (mergeOuter d1 d2).cols ∧
      col ∉ (mergeOuter d1 d2).cols := by
  intro col hcol
  obtain ⟨hc1, hck, hc2⟩ := (mem_sharedCols d1 d2 col).mp hcol
  have hcs : col ∈ mergeSchemaCols := hs1 col hc1
  refine ⟨?_, ?_, ?_⟩
  · rw [mergeOuter_cols]
    refine List.mem_append_left _ ?_
    rw [suffixCols1, List.mem_map]
    exact ⟨col, hc1, by unfold sfx1; rw [if_pos ⟨hck, hc2⟩]⟩
  · rw [mergeOuter_cols]
    refine List.mem_append_right _ ?_
    rw [suffixCols2, List.mem_map]
    refine ⟨col, ?_, by unfold sfx2; rw [if_pos hc1]⟩
    rw [List.mem_filter]
    exact ⟨hc2, by simpa using hck⟩
  · rw [mergeOuter_cols]
    intro hmem
    rcases List.mem_append.mp hmem with hm | hm
    · rw [suffixCols1, List.mem_map] at hm
      obtain ⟨x, hx, hex⟩ := hm
      have hxs : x ∈ mergeSchemaCols := hs1 x hx
      unfold sfx1 at hex
      by_cases hxc : x ≠ "nct_id" ∧ x ∈ d2.cols
      · rw [if_pos hxc] at hex
        exact sch_plain_ne_sfx1 x col hxs hcs hex.symm
      · rw [if_neg hxc] at hex
        exact hxc (hex ▸ ⟨hck, hc2⟩)
    · rw [suffixCols2, List.mem_map] at hm
      obtain ⟨y, hy, hey⟩ := hm
      have hys : y ∈ mergeSchemaCols := hs2 y (List.mem_of_mem_filter hy)
      unfold sfx2 at hey
      by_cases hyc : y ∈ d1.cols
      · rw [if_pos hyc] at hey
        exact sch_plain_ne_sfx2 y col hys hcs hey.symm
      · rw [if_neg hyc] at hey
        exact hyc (hey ▸ hc1)

/-- Tagging a schema table with the provenance marker preserves the
accumulated-table invariant. -/
theorem tagged_props (t : Table) (v : FlatValue)
    (hs : ∀ c ∈ t.cols, c ∈ mergeSchemaCols) (hnd : t.cols.Nodup)
    (hwf : t.WF) (hk : "nct_id" ∈ t.cols) :
    (∀ c ∈ (setColScalar t "source" v).cols, c ∈ mergeSchemaCols) ∧
    (setColScalar t "source" v).cols.Nodup ∧
    (setColScalar t "source" v).WF ∧
    "nct_id" ∈ (setColScalar t "source" v).cols ∧
    (setColScalar t "source" v).rows.length = t.rows.length := by
  refine ⟨?_, ?_, setColScalar_WF t _ v hwf,
    mem_setColVals_cols_of_mem t _ "nct_id" _ hk,
    setColScalar_rows_length t _ v⟩ <;>
  simp only [setColScalar] <;>
  by_cases hsrc : "source" ∈ t.cols
  · rw [setColVals_cols_of_mem t _ _ hsrc]
    exact hs
  · rw [setColVals_cols_of_not_mem t _ _ hsrc]
    intro c hc
    rcases List.mem_append.mp hc with hlf | hrt
    · exact hs c hlf
    · rw [List.mem_singleton] at hrt
      rw [hrt]
      exact schema_basic.2.2.2.2.1
  · rw [setColVals_cols_of_mem t _ _ hsrc]
    exact hnd
  · rw [setColVals_cols_of_not_mem t _ _ hsrc]
    refine List.Nodup.append hnd (List.nodup_singleton _) ?_
    intro a ha ha2
    rw [List.mem_singleton] at ha2
    exact hsrc (ha2 ▸ ha)

/-- `_merge_trials` on tables carrying the key returns the clean-up of
the outer merge of the tagged inputs. -/
theorem merge_trials_ok (a b : Table) (hka : "nct_id" ∈ a.cols)
    (hkb : "nct_id" ∈ b.cols) :
    _merge_trials a b
      = Except.ok (combineStep (mergeOuter (mergeInput1After a) (mergeInput2After b))) := by
  unfold _merge_trials mergeInput1After mergeInput2After
  rw [if_pos ⟨mem_setColVals_cols_of_mem a _ "nct_id" _ hka,
    mem_setColVals_cols_of_mem b _ "nct_id" _ hkb⟩]

/-- The output of `_merge_trials` on two invariant tables: it exists,
satisfies the invariant, and has the outer-join row count. -/
theorem merge_output_props (a b : Table) (hia : accInv a) (hib : accInv b) :
    ∃ out, _merge_trials a b = Except.ok out ∧ accInv out ∧
      out.rows.length
        = (mergeOuter (mergeInput1After a) (mergeInput2After b)).rows.length := by
  obtain ⟨hsa, hnda, hwfa, hka⟩ := hia
  obtain ⟨hsb, hndb, hwfb, hkb⟩ := hib
  obtain ⟨hsa2, hnda2, hwfa2, hka2, _⟩ :=
    tagged_props a (.str "dataset1") hsa hnda hwfa hka
  obtain ⟨hsb2, hndb2, hwfb2, hkb2, _⟩ :=
    tagged_props b (.str "dataset2") hsb hndb hwfb hkb
  set d1 := mergeInput1After a with hd1
  set d2 := mergeInput2After b with hd2
  have hmnd : (mergeOuter d1 d2).cols.Nodup :=
    mergeOuter_cols_nodup d1 d2 hsa2 hsb2 hnda2 hndb2
  have hmwf : (mergeOuter d1 d2).WF := mergeOuter_WF d1 d2 hwfa2 hwfb2
  have hLsch : ∀ col ∈ sharedCols d1 d2, col ∈ mergeSchemaCols := by
    intro col hcol
    exact hsa2 col ((mem_sharedCols d1 d2 col).mp hcol).1
  obtain ⟨⟨hnd2, hwf2, hlen2⟩, hproc, hkeep, hco⟩ :=
    combine_fold_spec (sharedCols d1 d2) (mergeOuter d1 d2)
      (fold_hyps_mergeOuter d1 d2 hsa2 hsb2)
      (sharedCols_nodup d1 d2 hnda2) hLsch hmnd hmwf
  have hfold : combineStep (mergeOuter d1 d2)
      = (sharedCols d1 d2).foldl combineColStep (mergeOuter d1 d2) := by
    unfold combineStep
    rw [colsToCombine_mergeOuter d1 d2 hsa2 hsb2]
  refine ⟨combineStep (mergeOuter d1 d2),
    merge_trials_ok a b hka hkb, ⟨?_, ?_, ?_, ?_⟩, ?_⟩
  · -- columns stay inside the extended schema
    rw [hfold]
    intro c hc
    rcases hco c hc with ⟨hin, hdis⟩ | hin
    · rw [mergeOuter_cols] at hin
      rcases List.mem_append.mp hin with hm | hm
      · rw [suffixCols1, List.mem_map] at hm
        obtain ⟨x, hx, hex⟩ := hm
        unfold sfx1 at hex
        by_cases hxc : x ≠ "nct_id" ∧ x ∈ d2.cols
        · rw [if_pos hxc] at hex
          have hxsh : x ∈ sharedCols d1 d2 :=
            (mem_sharedCols d1 d2 x).mpr ⟨hx, hxc.1, hxc.2⟩
          exact absurd hex.symm (hdis x hxsh).1
        · rw [if_neg hxc] at hex
          exact hex ▸ hsa2 x hx
      · rw [suffixCols2, List.mem_map] at hm
        obtain ⟨y, hy, hey⟩ := hm
        have hyk : y ≠ "nct_id" := by
          have := List.of_mem_filter hy
          simpa using this
        have hyd2 : y ∈ d2.cols := List.mem_of_mem_filter hy
        unfold sfx2 at hey
        by_cases hyc : y ∈ d1.cols
        · rw [if_pos hyc] at hey
          have hysh : y ∈ sharedCols d1 d2 :=
            (mem_sharedCols d1 d2 y).mpr ⟨hyc, hyk, hyd2⟩
          exact absurd hey.symm (hdis y hysh).2
        · rw [if_neg hyc] at hey
          exact hey ▸ hsb2 y hyd2
    · exact hsa2 c ((mem_sharedCols d1 d2 c).mp hin).1
  · rw [hfold]
    exact hnd2
  · rw [hfold]
    exact hwf2
  · -- the key survives
    rw [hfold]
    have hkm : "nct_id" ∈ (mergeOuter d1 d2).cols := by
      rw [mergeOuter_cols]
      refine List.mem_append_left _ ?_
      rw [suffixCols1, List.mem_map]
      exact ⟨"nct_id", hka2, sfx1_key d2⟩
    have hks : ("nct_id" : String) ∈ mergeSchemaCols := schema_basic.2.2.2.1
    refine (hkeep "nct_id" hkm ?_).1
    intro col hcol
    have hcolS : col ∈ mergeSchemaCols := hLsch col hcol
    exact ⟨sch_plain_ne_sfx1 col "nct_id" hcolS hks,
      sch_plain_ne_sfx2 col "nct_id" hcolS hks⟩
  · rw [hfold]
    exact hlen2

/-! ## Page-level runs of `fetch_trials` -/

/-- A response head whose processing, accumulation and token check all
land in the terminating branch. -/
theorem fetchGo_response_ok (mr a page : Nat) (acc : Table) (body : ResponseBody)
    (rest : List AttemptResult) (t acc2 : Table)
    (hp : _process_response body = .ok t)
    (hm : (if page = 0 then Except.ok t else _merge_trials acc t) = Except.ok acc2)
    (htok : tokenFalsy (bodyToken body) = true) :
    fetchGo mr a page acc (.response body :: rest) = ⟨.ok acc2, 1, 0⟩ := by
  simp only [fetchGo, hp, hm, htok, if_true]

/-- A response head that carries a continuation token: the run continues
on the next page with the merged accumulator. -/
theorem fetchGo_response_next (mr a page : Nat) (acc : Table) (body : ResponseBody)
    (rest : List AttemptResult) (t acc2 : Table)
    (hp : _process_response body = .ok t)
    (hm : (if page = 0 then Except.ok t else _merge_trials acc t) = Except.ok acc2)
    (htok : tokenFalsy (bodyToken body) = false) :
    fetchGo mr a page acc (.response body :: rest)
      = ⟨(fetchGo mr 0 (page + 1) acc2 rest).result,
         (fetchGo mr 0 (page + 1) acc2 rest).requests + 1,
         (fetchGo mr 0 (page + 1) acc2 rest).sleeps⟩ := by
  simp only [fetchGo, hp, hm, htok, Bool.false_eq_true, if_false]

/-- Studies that all flatten successfully process into a table. -/
theorem mapM_flatten_exists (studies : List RawStudy)
    (hfl : ∀ s ∈ studies, ∃ r, flatten_trial s = Except.ok r) :
    ∃ recs, studies.mapM flatten_trial = Except.ok recs := by
  induction studies with
  | nil =>
    refine ⟨[], ?_⟩
    rw [List.mapM_nil]
    rfl
  | cons s studies ih =>
    obtain ⟨r0, hr0⟩ := hfl s (List.mem_cons_self s studies)
    obtain ⟨recs, hrecs⟩ := ih (fun s2 h2 => hfl s2 (List.mem_cons_of_mem s h2))
    refine ⟨r0 :: recs, ?_⟩
    rw [List.mapM_cons, hr0, hrecs]
    rfl

/-- A page body whose studies all flatten successfully processes into a
table. -/
theorem process_ok_exists (studies : List RawStudy) (tok : Option String)
    (hfl : ∀ s ∈ studies, ∃ r, flatten_trial s = Except.ok r) :
    ∃ t, _process_response (.ok studies tok) = Except.ok t := by
  obtain ⟨recs, hrecs⟩ := mapM_flatten_exists studies hfl
  refine ⟨convertDates (dfOfRecords recs), ?_⟩
  unfold _process_response
  simp only [bind, Except.bind, hrecs]
  rfl

/-- The table of a processed good page satisfies the accumulator
invariant. -/
theorem process_good_accInv (body : ResponseBody) (hg : goodBody body) :
    ∃ t, _process_response body = Except.ok t ∧ accInv t := by
  obtain ⟨studies, tok, hb, hne, hfl⟩ := hg
  obtain ⟨t, ht⟩ := process_ok_exists studies tok hfl
  obtain ⟨_, hwf, hsub, hnd, hkey⟩ := process_ok_props studies tok t ht
  refine ⟨t, hb ▸ ht, ?_, hnd, hwf, hkey hne⟩
  intro c hc
  exact schema_basic.2.2.2.2.2.2.2.2.1 c (hsub c hc)

/-- One page of the script: the errors are retried away, the response is
processed, the accumulator is extended, and the run continues (or stops
when the token is falsy). -/
theorem fetchGo_pages (mr : Nat) (pages : List PageFetch) :
    ∀ (plast : PageFetch) (rest : List AttemptResult) (page : Nat) (acc : Table),
    (∀ p ∈ pages ++ [plast], p.errs.length < mr) →
    (∀ p ∈ pages ++ [plast], goodBody p.body) →
    (∀ p ∈ pages, tokenFalsy (bodyToken p.body) = false) →
    tokenFalsy (bodyToken plast.body) = true →
    (page = 0 ∨ accInv acc) →
    ∃ t nsleep, fetchGo mr 0 page acc (pagesScript (pages ++ [plast]) ++ rest)
        = ⟨Except.ok t, (pagesScript (pages ++ [plast])).length, nsleep⟩ := by
  induction pages with
  | nil =>
    intro plast rest page acc hbudget hgood _ hlast hinv
    obtain ⟨t, hproc, hinvt⟩ :=
      process_good_accInv plast.body (hgood plast (List.mem_cons_self _ _))
    obtain ⟨acc2, hm, _⟩ : ∃ acc2,
        (if page = 0 then Except.ok t else _merge_trials acc t) = Except.ok acc2 ∧
          accInv acc2 := by
      by_cases hpg : page = 0
      · exact ⟨t, by rw [if_pos hpg], hinvt⟩
      · rcases hinv with hpg0 | hinvacc
        · exact absurd hpg0 hpg
        · obtain ⟨out, hout, hinvout, _⟩ := merge_output_props acc t hinvacc hinvt
          exact ⟨out, by rw [if_neg hpg]; exact hout, hinvout⟩
    have hscript : pagesScript ([] ++ [plast]) ++ rest
        = plast.errs.map AttemptResult.transportError ++ .response plast.body :: rest := by
      simp [pagesScript, PageFetch.toScript]
    have hbud : 0 + plast.errs.length + 1 ≤ mr := by
      have := hbudget plast (List.mem_cons_self _ _)
      omega
    refine ⟨acc2, plast.errs.length, ?_⟩
    rw [hscript, fetchGo_skip_errors mr plast.errs 0 page acc plast.body rest hbud,
      fetchGo_response_ok mr 0 page acc plast.body rest t acc2 hproc hm hlast]
    have hlen : (pagesScript ([] ++ [plast])).length = plast.errs.length + 1 := by
      simp [pagesScript, PageFetch.toScript]
    rw [hlen]
    simp [Nat.add_comm]
  | cons p pages ih =>
    intro plast rest page acc hbudget hgood htoks hlast hinv
    obtain ⟨t, hproc, hinvt⟩ :=
      process_good_accInv p.body (hgood p (List.mem_cons_self _ _))
    obtain ⟨acc2, hm, hinv2⟩ : ∃ acc2,
        (if page = 0 then Except.ok t else _merge_trials acc t) = Except.ok acc2 ∧
          accInv acc2 := by
      by_cases hpg : page = 0
      · exact ⟨t, by rw [if_pos hpg], hinvt⟩
      · rcases hinv with hpg0 | hinvacc
        · exact absurd hpg0 hpg
        · obtain ⟨out, hout, hinvout, _⟩ := merge_output_props acc t hinvacc hinvt
          exact ⟨out, by rw [if_neg hpg]; exact hout, hinvout⟩
    have hscript : pagesScript ((p :: pages) ++ [plast]) ++ rest
        = p.errs.map AttemptResult.transportError
          ++ .response p.body :: (pagesScript (pages ++ [plast]) ++ rest) := by
      simp [pagesScript, PageFetch.toScript, List.flatMap_cons, List.append_assoc]
    have hbud : 0 + p.errs.length + 1 ≤ mr := by
      have := hbudget p (List.mem_cons_self _ _)
      omega
    obtain ⟨t2, ns2, hrec⟩ := ih plast rest (page + 1) acc2
      (fun q hq => hbudget q (List.mem_cons_of_mem p hq))
      (fun q hq => hgood q (List.mem_cons_of_mem p hq))
      (fun q hq => htoks q (List.mem_cons_of_mem p hq))
      hlast (Or.inr hinv2)
    have hX : fetchGo mr 0 page acc
        (.response p.body :: (pagesScript (pages ++ [plast]) ++ rest))
        = ⟨Except.ok t2, (pagesScript (pages ++ [plast])).length + 1, ns2⟩ := by
      rw [fetchGo_response_next mr 0 page acc p.body
          (pagesScript (pages ++ [plast]) ++ rest) t acc2 hproc hm
          (htoks p (List.mem_cons_self _ _)),
        hrec]
    have hlen : (pagesScript ((p :: pages) ++ [plast])).length
        = p.errs.length + 1 + (pagesScript (pages ++ [plast])).length := by
      simp only [List.cons_append, pagesScript, List.flatMap_cons, List.length_append,
        PageFetch.toScript, List.length_map, List.length_cons, List.length_nil]
    refine ⟨t2, p.errs.length + ns2, ?_⟩
    rw [hscript, fetchGo_skip_errors mr p.errs 0 page acc p.body
        (pagesScript (pages ++ [plast]) ++ rest) hbud, hX, hlen]
    simp only [RunOutcome.mk.injEq]
    refine ⟨trivial, by omega, by omega⟩

/-- Tagging a table that has no `source` column appends the tag cell to
every row. -/
theorem setColScalar_rows_of_not_mem (t : Table) (c : String) (v : FlatValue)
    (h : c ∉ t.cols) :
    (setColScalar t c v).rows = t.rows.map (fun r => r ++ [v]) := by
  unfold setColScalar setColVals
  rw [colIdx_eq_none t.cols c h]
  exact zipWith_replicate_right (fun r v => r ++ [v]) t.rows v

/-- The key of a tagged row is the key of the original row. -/
theorem rowKey_tagged (t : Table) (v : FlatValue) (hsrc : "source" ∉ t.cols)
    (hk : "nct_id" ∈ t.cols) (hwf : t.WF) (r : List FlatValue) (hr : r ∈ t.rows) :
    rowKey (setColScalar t "source" v) (r ++ [v]) = rowKey t r := by
  unfold rowKey
  show getCell (setColVals t "source" _).cols _ _ = _
  rw [setColVals_cols_of_not_mem t _ _ hsrc]
  exact getCell_append_left t.cols ["source"] r [v] "nct_id" hk (hwf r hr)

/-! ## The remaining pagination claims -/

/-- C8 (confirmed): a transport that eventually returns a no-token page,
each page within the retry budget and processing cleanly (pages parse,
are nonempty, and each study flattens), makes `fetch_trials` terminate
with the accumulated table; the number of requests issued equals the
script length up to and including the no-token response, so no request
is made after it. -/
theorem c8_termination (mr : Nat) (pages : List PageFetch) (plast : PageFetch)
    (rest : List AttemptResult)
    (hbudget : ∀ p ∈ pages ++ [plast], p.errs.length < mr)
    (hgood : ∀ p ∈ pages ++ [plast], goodBody p.body)
    (htoks : ∀ p ∈ pages, tokenFalsy (bodyToken p.body) = false)
    (hlast : tokenFalsy (bodyToken plast.body) = true) :
    ∃ t, (fetch_trials mr (pagesScript (pages ++ [plast]) ++ rest)).result
        = Except.ok t ∧
      (fetch_trials mr (pagesScript (pages ++ [plast]) ++ rest)).requests
        = (pagesScript (pages ++ [plast])).length := by
  obtain ⟨t, ns, h⟩ := fetchGo_pages mr pages plast rest 0 emptyTable
    hbudget hgood htoks hlast (Or.inl rfl)
  refine ⟨t, ?_, ?_⟩ <;> (unfold fetch_trials; rw [h])

/-- C8 (witness): a two-page script (one retried failure, then a token
page, then a final tokenless page) returns a table after exactly the
four scripted requests, ignoring the trailing script entry. -/
theorem c8_termination_witness :
    ((∀ p ∈ [witPageOne] ++ [witPageLast], p.errs.length < 3) ∧
      (∀ p ∈ [witPageOne], tokenFalsy (bodyToken p.body) = false) ∧
      tokenFalsy (bodyToken witPageLast.body) = true) ∧
    ∃ t, (fetch_trials 3 (pagesScript ([witPageOne] ++ [witPageLast]) ++ witRest)).result
        = Except.ok t ∧
      (fetch_trials 3 (pagesScript ([witPageOne] ++ [witPageLast]) ++ witRest)).requests
        = (pagesScript ([witPageOne] ++ [witPageLast])).length :=
  ⟨⟨by decide, by decide, by decide⟩,
   c8_termination 3 [witPageOne] witPageLast witRest (by decide)
     (by
       intro p hp
       rcases List.mem_cons.mp hp with rfl | hp2
       · exact ⟨[studyNamed "NCT0001"], some "TOKEN", rfl, by decide,
           fun s hs => by
             rcases List.mem_singleton.mp hs with rfl
             exact ⟨_, rfl⟩⟩
       · rcases List.mem_singleton.mp hp2 with rfl
         exact ⟨[studyNamed "NCT0002"], none, rfl, by decide,
           fun s hs => by
             rcases List.mem_singleton.mp hs with rfl
             exact ⟨_, rfl⟩⟩)
     (by decide) (by decide)⟩

/-- C1 (amended, confirmed): a two-page run with nonempty pages whose
`nct_id` sets are disjoint returns, after exactly two requests and no
sleeps, a table whose row count is the sum of the two page study
counts — the pages being combined by the merge, not concatenation. -/
theorem c1_pages_merged_rowcount (mr : Nat) (s1 s2 : List RawStudy) (tok : String)
    (t1 t2 : Table)
    (h1 : _process_response (.ok s1 (some tok)) = Except.ok t1)
    (h2 : _process_response (.ok s2 none) = Except.ok t2)
    (htok : tok ≠ "")
    (hne1 : s1 ≠ []) (hne2 : s2 ≠ [])
    (hdisj : ∀ r1 ∈ t1.rows, ∀ r2 ∈ t2.rows, rowKey t2 r2 ≠ rowKey t1 r1) :
    ∃ t, fetch_trials mr [.response (.ok s1 (some tok)), .response (.ok s2 none)]
        = ⟨Except.ok t, 2, 0⟩ ∧ t.rows.length = s1.length + s2.length := by
  obtain ⟨hlen1, hwf1, hsub1, hnd1, hkey1⟩ := process_ok_props s1 (some tok) t1 h1
  obtain ⟨hlen2, hwf2, hsub2, hnd2, hkey2⟩ := process_ok_props s2 none t2 h2
  have hinv1 : accInv t1 :=
    ⟨fun c hc => schema_basic.2.2.2.2.2.2.2.2.1 c (hsub1 c hc), hnd1, hwf1, hkey1 hne1⟩
  have hinv2 : accInv t2 :=
    ⟨fun c hc => schema_basic.2.2.2.2.2.2.2.2.1 c (hsub2 c hc), hnd2, hwf2, hkey2 hne2⟩
  obtain ⟨out, hout, _, hrowlen⟩ := merge_output_props t1 t2 hinv1 hinv2
  have hsrc1 : "source" ∉ t1.cols := fun hm => schema_basic.2.2.1 (hsub1 _ hm)
  have hsrc2 : "source" ∉ t2.cols := fun hm => schema_basic.2.2.1 (hsub2 _ hm)
  have hrows1 : (mergeInput1After t1).rows
      = t1.rows.map (fun r => r ++ [FlatValue.str "dataset1"]) :=
    setColScalar_rows_of_not_mem t1 "source" _ hsrc1
  have hrows2 : (mergeInput2After t2).rows
      = t2.rows.map (fun r => r ++ [FlatValue.str "dataset2"]) :=
    setColScalar_rows_of_not_mem t2 "source" _ hsrc2
  have hdisj2 : ∀ r1 ∈ (mergeInput1After t1).rows, ∀ r2 ∈ (mergeInput2After t2).rows,
      rowKey (mergeInput2After t2) r2 ≠ rowKey (mergeInput1After t1) r1 := by
    intro r1m hr1m r2m hr2m
    rw [hrows1, List.mem_map] at hr1m
    rw [hrows2, List.mem_map] at hr2m
    obtain ⟨r1, hr1, he1⟩ := hr1m
    obtain ⟨r2, hr2, he2⟩ := hr2m
    rw [← he1, ← he2]
    unfold mergeInput1After mergeInput2After
    rw [rowKey_tagged t1 _ hsrc1 (hkey1 hne1) hwf1 r1 hr1,
      rowKey_tagged t2 _ hsrc2 (hkey2 hne2) hwf2 r2 hr2]
    exact hdisj r1 hr1 r2 hr2
  have hmlen := mergeOuter_rows_length_disjoint
    (mergeInput1After t1) (mergeInput2After t2) hdisj2
  have houtlen : out.rows.length = s1.length + s2.length := by
    rw [hrowlen, hmlen, hrows1, hrows2, List.length_map, List.length_map, hlen1, hlen2]
  have htokf : tokenFalsy (bodyToken (.ok s1 (some tok))) = false := by
    show (tok == "") = false
    exact beq_eq_false_iff_ne.mpr htok
  have hinner : fetchGo mr 0 1 t1 [AttemptResult.response (.ok s2 none)]
      = ⟨Except.ok out, 1, 0⟩ := by
    refine fetchGo_response_ok mr 0 1 t1 (.ok s2 none) [] t2 out h2 ?_ rfl
    rw [if_neg (by omega : ¬ (1 = 0))]
    exact hout
  refine ⟨out, ?_, houtlen⟩
  show fetchGo mr 0 0 emptyTable _ = _
  rw [fetchGo_response_next mr 0 0 emptyTable (.ok s1 (some tok))
      [AttemptResult.response (.ok s2 none)] t1 t1 h1 (by rw [if_pos rfl]) htokf,
    hinner]

/-- C1 (witness): the amended theorem on two concrete one-study pages
with distinct ids. -/
theorem c1_pages_merged_rowcount_witness :
    (_process_response (.ok [studyNamed "NCT0001"] (some "TOKEN"))
        = Except.ok (convertDates (dfOfRecords [[("nct_id", FlatValue.str "NCT0001"),
            ("org_study_id", FlatValue.null), ("brief_title", FlatValue.null),
            ("overall_status", FlatValue.null), ("last_known_status", FlatValue.null),
            ("start_date", FlatValue.null), ("completion_date", FlatValue.null),
            ("sponsor", FlatValue.null), ("brief_summary", FlatValue.null),
            ("conditions", FlatValue.str ""), ("keywords", FlatValue.str ""),
            ("enrollment_count", FlatValue.null), ("study_type", FlatValue.null),
            ("phase", FlatValue.str "")]])) ∧
      ("TOKEN" : String) ≠ "") ∧
    ∃ t, fetch_trials 5 [.response (.ok [studyNamed "NCT0001"] (some "TOKEN")),
        .response (.ok [studyNamed "NCT0002"] none)]
        = ⟨Except.ok t, 2, 0⟩ ∧ t.rows.length = 1 + 1 :=
  ⟨⟨by rfl, by decide⟩,
   c1_pages_merged_rowcount 5 [studyNamed "NCT0001"] [studyNamed "NCT0002"] "TOKEN"
     _ _ (by rfl) (by rfl) (by decide) (by decide) (by decide) (by decide)⟩

/-! ## Column contents of the merged table, restricted to left rows -/

/-- Tagging preserves key uniqueness. -/
theorem uniqueKeys_tagged (t : Table) (v : FlatValue) (hsrc : "source" ∉ t.cols)
    (hk : "nct_id" ∈ t.cols) (hwf : t.WF) (hu : uniqueKeys t) :
    uniqueKeys (setColScalar t "source" v) := by
  unfold uniqueKeys
  rw [setColScalar_rows_of_not_mem t _ v hsrc, List.map_map]
  have : ∀ r ∈ t.rows,
      rowKey (setColScalar t "source" v) (r ++ [v]) = rowKey t r :=
    fun r hr => rowKey_tagged t v hsrc hk hwf r hr
  have hmap : List.map ((fun r => rowKey (setColScalar t "source" v) r) ∘ fun r => r ++ [v])
      t.rows = List.map (fun r => rowKey t r) t.rows :=
    List.map_congr_left (fun r hr => this r hr)
  rw [hmap]
  exact hu

/-- The first `|left rows|` cells of any merged column are read off the
per-left-row merged rows. -/
theorem colAt_mergeOuter_take (d1 d2 : Table) (x : String) (hu2 : uniqueKeys d2) :
    (colAt (mergeOuter d1 d2) x).take d1.rows.length
      = d1.rows.map (fun r1 => getCell (mergeOuter d1 d2).cols (mergedLeft d1 d2 r1) x) := by
  unfold colAt
  show (((leftMergedRows d1 d2 ++ rightOnlyRows d1 d2).map _).take _) = _
  rw [List.map_append, leftMergedRows_eq_map d1 d2 hu2, List.map_map]
  refine List.take_left' ?_
  rw [List.length_map]

/-- The contribution of table B to a combined cell is unchanged by the
tagging. -/
theorem bCell_tagged (df1 df2 : Table) (c : String) (r1 : List FlatValue)
    (hr1 : r1 ∈ df1.rows) (hwf1 : df1.WF) (hwf2 : df2.WF)
    (hk1 : "nct_id" ∈ df1.cols) (hk2 : "nct_id" ∈ df2.cols)
    (hsrc1 : "source" ∉ df1.cols) (hsrc2 : "source" ∉ df2.cols)
    (hcc : c ∈ df2.cols) :
    bCell (mergeInput1After df1) (mergeInput2After df2) c
        (r1 ++ [FlatValue.str "dataset1"])
      = bCell df1 df2 c r1 := by
  unfold bCell mergeInput1After mergeInput2After
  rw [setColScalar_rows_of_not_mem df2 _ _ hsrc2, List.find?_map]
  rw [find?_congr df2.rows _ _ (fun r2 hr2 => by
    show decide (rowKey (setColScalar df2 "source" (FlatValue.str "dataset2"))
        (r2 ++ [FlatValue.str "dataset2"]) = _) = _
    rw [rowKey_tagged df2 _ hsrc2 hk2 hwf2 r2 hr2,
      rowKey_tagged df1 _ hsrc1 hk1 hwf1 r1 hr1])]
  cases hf : df2.rows.find?
      (fun r2 => decide (rowKey df2 r2 = rowKey df1 r1)) with
  | some r2 =>
    rw [Option.map_some']
    have hr2 : r2 ∈ df2.rows := List.mem_of_find?_eq_some hf
    show getCell (setColVals df2 "source" _).cols _ _ = _
    rw [setColVals_cols_of_not_mem df2 _ _ hsrc2]
    exact getCell_append_left df2.cols ["source"] r2 _ c hcc (hwf2 r2 hr2)
  | none =>
    rw [Option.map_none']

/-- `take` distributes over `zipWith`. -/
theorem take_zipWith {α β γ : Type} (f : α → β → γ) :
    ∀ (as : List α) (bs : List β) (n : Nat),
      (List.zipWith f as bs).take n = List.zipWith f (as.take n) (bs.take n) := by
  intro as
  induction as with
  | nil => intro bs n; simp
  | cons a as ih =>
    intro bs n
    cases bs with
    | nil => simp
    | cons b bs =>
      cases n with
      | zero => rfl
      | succ k =>
        rw [List.zipWith_cons_cons, List.take_succ_cons, List.take_succ_cons,
          List.take_succ_cons, List.zipWith_cons_cons, ih bs k]

/-- C6 (confirmed): on schema tables with unique keys and the join key
present, `_merge_trials` resolves every column shared by both inputs by
preferring the value of table A and falling back to the matching row of
table B, drops the two suffixed columns in favour of the combined one,
and passes columns unique to either input through unchanged (B-only
columns read from the matching B row on A-side rows). -/
theorem c6_merge_conflict_resolution (df1 df2 out : Table)
    (hs1 : ∀ c ∈ df1.cols, c ∈ schemaCols) (hs2 : ∀ c ∈ df2.cols, c ∈ schemaCols)
    (hnd1 : df1.cols.Nodup) (hnd2 : df2.cols.Nodup)
    (hwf1 : df1.WF) (hwf2 : df2.WF)
    (hk1 : "nct_id" ∈ df1.cols) (hk2 : "nct_id" ∈ df2.cols)
    (hu1 : uniqueKeys df1) (hu2 : uniqueKeys df2)
    (hres : _merge_trials df1 df2 = Except.ok out) :
    (∀ c ∈ df1.cols, c ∈ df2.cols → c ≠ "nct_id" →
      c ∈ out.cols ∧ (c ++ "_1") ∉ out.cols ∧ (c ++ "_2") ∉ out.cols ∧
      (colAt out c).take df1.rows.length
        = df1.rows.map (fun r1 =>
            combineFirstV (getCell df1.cols r1 c) (bCell df1 df2 c r1)))
    ∧ (∀ c ∈ df1.cols, c ∉ df2.cols →
      c ∈ out.cols ∧
      (colAt out c).take df1.rows.length
        = df1.rows.map (fun r1 => getCell df1.cols r1 c))
    ∧ (∀ c ∈ df2.cols, c ∉ df1.cols →
      c ∈ out.cols ∧
      (colAt out c).take df1.rows.length
        = df1.rows.map (fun r1 => bCell df1 df2 c r1)) := by
  have hsrc1 : "source" ∉ df1.cols := fun hm => schema_basic.2.2.1 (hs1 _ hm)
  have hsrc2 : "source" ∉ df2.cols := fun hm => schema_basic.2.2.1 (hs2 _ hm)
  have hms1 : ∀ c ∈ df1.cols, c ∈ mergeSchemaCols :=
    fun c hc => schema_basic.2.2.2.2.2.2.2.2.1 c (hs1 c hc)
  have hms2 : ∀ c ∈ df2.cols, c ∈ mergeSchemaCols :=
    fun c hc => schema_basic.2.2.2.2.2.2.2.2.1 c (hs2 c hc)
  obtain ⟨hsd1, hndd1, hwfd1, hkd1, _⟩ :
      (∀ c ∈ (mergeInput1After df1).cols, c ∈ mergeSchemaCols) ∧
      (mergeInput1After df1).cols.Nodup ∧ (mergeInput1After df1).WF ∧
      "nct_id" ∈ (mergeInput1After df1).cols ∧
      (mergeInput1After df1).rows.length = df1.rows.length :=
    tagged_props df1 (.str "dataset1") hms1 hnd1 hwf1 hk1
  obtain ⟨hsd2, hndd2, hwfd2, hkd2, _⟩ :
      (∀ c ∈ (mergeInput2After df2).cols, c ∈ mergeSchemaCols) ∧
      (mergeInput2After df2).cols.Nodup ∧ (mergeInput2After df2).WF ∧
      "nct_id" ∈ (mergeInput2After df2).cols ∧
      (mergeInput2After df2).rows.length = df2.rows.length :=
    tagged_props df2 (.str "dataset2") hms2 hnd2 hwf2 hk2
  have hcolsd1 : (mergeInput1After df1).cols = df1.cols ++ ["source"] :=
    setColVals_cols_of_not_mem df1 "source" _ hsrc1
  have hcolsd2 : (mergeInput2After df2).cols = df2.cols ++ ["source"] :=
    setColVals_cols_of_not_mem df2 "source" _ hsrc2
  have hrowsd1 : (mergeInput1After df1).rows
      = df1.rows.map (fun r => r ++ [FlatValue.str "dataset1"]) :=
    setColScalar_rows_of_not_mem df1 "source" _ hsrc1
  have hu2d : uniqueKeys (mergeInput2After df2) :=
    uniqueKeys_tagged df2 _ hsrc2 hk2 hwf2 hu2
  have hmnd := mergeOuter_cols_nodup (mergeInput1After df1) (mergeInput2After df2)
    hsd1 hsd2 hndd1 hndd2
  have hmwf := mergeOuter_WF (mergeInput1After df1) (mergeInput2After df2) hwfd1 hwfd2
  have hLsch : ∀ col ∈ sharedCols (mergeInput1After df1) (mergeInput2After df2),
      col ∈ mergeSchemaCols :=
    fun col hcol => hsd1 col ((mem_sharedCols _ _ col).mp hcol).1
  obtain ⟨_, hproc, hkeep, hco⟩ :=
    combine_fold_spec (sharedCols (mergeInput1After df1) (mergeInput2After df2))
      (mergeOuter (mergeInput1After df1) (mergeInput2After df2))
      (fold_hyps_mergeOuter _ _ hsd1 hsd2)
      (sharedCols_nodup _ _ hndd1) hLsch hmnd hmwf
  have hout : out = (sharedCols (mergeInput1After df1) (mergeInput2After df2)).foldl
      combineColStep (mergeOuter (mergeInput1After df1) (mergeInput2After df2)) := by
    have h0 := merge_trials_ok df1 df2 hk1 hk2
    rw [hres] at h0
    have h1 := Except.ok.inj h0
    rw [h1]
    unfold combineStep
    rw [colsToCombine_mergeOuter _ _ hsd1 hsd2]
  -- reading any merged column off the left rows
  have htake : ∀ x,
      (colAt (mergeOuter (mergeInput1After df1) (mergeInput2After df2)) x).take
          df1.rows.length
        = df1.rows.map (fun r1 =>
            getCell (mergeOuter (mergeInput1After df1) (mergeInput2After df2)).cols
              (mergedLeft (mergeInput1After df1) (mergeInput2After df2)
                (r1 ++ [FlatValue.str "dataset1"])) x) := by
    intro x
    have h := colAt_mergeOuter_take (mergeInput1After df1) (mergeInput2After df2) x hu2d
    rw [hrowsd1, List.length_map, List.map_map] at h
    exact h
  have hlen1 : ∀ r1 ∈ df1.rows,
      (r1 ++ [FlatValue.str "dataset1"]).length = (mergeInput1After df1).cols.length := by
    intro r1 hr1
    rw [hcolsd1, List.length_append, List.length_append, hwf1 r1 hr1]
    rfl
  refine ⟨?_, ?_, ?_⟩
  · -- shared columns
    intro c hc1 hc2 hck
    have hcd1 : c ∈ (mergeInput1After df1).cols := by
      rw [hcolsd1]; exact List.mem_append_left _ hc1
    have hcd2 : c ∈ (mergeInput2After df2).cols := by
      rw [hcolsd2]; exact List.mem_append_left _ hc2
    have hcsh : c ∈ sharedCols (mergeInput1After df1) (mergeInput2After df2) :=
      (mem_sharedCols _ _ c).mpr ⟨hcd1, hck, hcd2⟩
    obtain ⟨hmem, hn1, hn2, hvals⟩ := hproc c hcsh
    rw [← hout] at hmem hn1 hn2 hvals
    refine ⟨hmem, hn1, hn2, ?_⟩
    rw [hvals, take_zipWith, htake (c ++ "_1"), htake (c ++ "_2"), zipWith_map_same]
    refine List.map_congr_left ?_
    intro r1 hr1
    have hsfx : sfx1 (mergeInput2After df2) c = c ++ "_1" := by
      unfold sfx1
      rw [if_pos ⟨hck, hcd2⟩]
    have hstep1 : getCell (mergeOuter (mergeInput1After df1) (mergeInput2After df2)).cols
        (mergedLeft (mergeInput1After df1) (mergeInput2After df2)
          (r1 ++ [FlatValue.str "dataset1"])) (c ++ "_1")
        = getCell df1.cols r1 c := by
      rw [← hsfx,
        getCell_mergedLeft_left (mergeInput1After df1) (mergeInput2After df2)
          (r1 ++ [FlatValue.str "dataset1"]) c hcd1 hsd1 (hlen1 r1 hr1), hcolsd1,
        getCell_append_left df1.cols ["source"] r1 _ c hc1 (hwf1 r1 hr1)]
    rw [hstep1, getCell_mergedLeft_right (mergeInput1After df1) (mergeInput2After df2)
        (r1 ++ [FlatValue.str "dataset1"]) c hcd1 hcd2 hck hsd1 hsd2
        (hlen1 r1 hr1) hwfd2,
      bCell_tagged df1 df2 c r1 hr1 hwf1 hwf2 hk1 hk2 hsrc1 hsrc2 hc2]
  · -- columns unique to table A
    intro c hc1 hc2
    have hcs : c ∈ mergeSchemaCols := hms1 c hc1
    have hcd1 : c ∈ (mergeInput1After df1).cols := by
      rw [hcolsd1]; exact List.mem_append_left _ hc1
    have hcsrc : c ≠ "source" := fun he => hsrc1 (he ▸ hc1)
    have hcd2 : c ∉ (mergeInput2After df2).cols := by
      rw [hcolsd2]
      intro hm
      rcases List.mem_append.mp hm with hm | hm
      · exact hc2 hm
      · rw [List.mem_singleton] at hm
        exact hcsrc hm
    have hsfx : sfx1 (mergeInput2After df2) c = c := by
      unfold sfx1
      rw [if_neg (fun h => hcd2 h.2)]
    have hcm : c ∈ (mergeOuter (mergeInput1After df1) (mergeInput2After df2)).cols := by
      rw [mergeOuter_cols]
      refine List.mem_append_left _ ?_
      rw [suffixCols1, List.mem_map]
      exact ⟨c, hcd1, hsfx⟩
    have hdis : ∀ col ∈ sharedCols (mergeInput1After df1) (mergeInput2After df2),
        c ≠ col ++ "_1" ∧ c ≠ col ++ "_2" :=
      fun col hcol => ⟨sch_plain_ne_sfx1 col c (hLsch col hcol) hcs,
        sch_plain_ne_sfx2 col c (hLsch col hcol) hcs⟩
    obtain ⟨hmem, hAt⟩ := hkeep c hcm hdis
    rw [← hout] at hmem hAt
    refine ⟨hmem, ?_⟩
    rw [hAt, htake c]
    refine List.map_congr_left ?_
    intro r1 hr1
    conv_lhs => rw [← hsfx]
    rw [getCell_mergedLeft_left (mergeInput1After df1) (mergeInput2After df2)
        (r1 ++ [FlatValue.str "dataset1"]) c hcd1 hsd1 (hlen1 r1 hr1), hcolsd1,
      getCell_append_left df1.cols ["source"] r1 _ c hc1 (hwf1 r1 hr1)]
  · -- columns unique to table B
    intro c hc2 hc1
    have hcs : c ∈ mergeSchemaCols := hms2 c hc2
    have hck : c ≠ "nct_id" := fun he => hc1 (he ▸ hk1)
    have hcsrc : c ≠ "source" := fun he => hsrc2 (he ▸ hc2)
    have hcd1 : c ∉ (mergeInput1After df1).cols := by
      rw [hcolsd1]
      intro hm
      rcases List.mem_append.mp hm with hm | hm
      · exact hc1 hm
      · rw [List.mem_singleton] at hm
        exact hcsrc hm
    have hcd2 : c ∈ (mergeInput2After df2).cols := by
      rw [hcolsd2]; exact List.mem_append_left _ hc2
    have hsfx : sfx2 (mergeInput1After df1) c = c := by
      unfold sfx2
      rw [if_neg hcd1]
    have hcm : c ∈ (mergeOuter (mergeInput1After df1) (mergeInput2After df2)).cols := by
      rw [mergeOuter_cols]
      refine List.mem_append_right _ ?_
      rw [suffixCols2, List.mem_map]
      refine ⟨c, ?_, hsfx⟩
      rw [List.mem_filter]
      exact ⟨hcd2, by simpa using hck⟩
    have hdis : ∀ col ∈ sharedCols (mergeInput1After df1) (mergeInput2After df2),
        c ≠ col ++ "_1" ∧ c ≠ col ++ "_2" :=
      fun col hcol => ⟨sch_plain_ne_sfx1 col c (hLsch col hcol) hcs,
        sch_plain_ne_sfx2 col c (hLsch col hcol) hcs⟩
    obtain ⟨hmem, hAt⟩ := hkeep c hcm hdis
    rw [← hout] at hmem hAt
    refine ⟨hmem, ?_⟩
    rw [hAt, htake c]
    refine List.map_congr_left ?_
    intro r1 hr1
    rw [getCell_mergedLeft_bonly (mergeInput1After df1) (mergeInput2After df2)
        (r1 ++ [FlatValue.str "dataset1"]) c hcd1 hcd2 hck hsd1 hsd2
        (hlen1 r1 hr1) hwfd2,
      bCell_tagged df1 df2 c r1 hr1 hwf1 hwf2 hk1 hk2 hsrc1 hsrc2 hc2]

/-- C6 (witness): the conflict-resolution theorem on two concrete
tables sharing NCT-1, where A has the title and B the sponsor. -/
theorem c6_merge_conflict_resolution_witness :
    ((∀ c ∈ witTableA.cols, c ∈ schemaCols) ∧
      (∀ c ∈ witTableB.cols, c ∈ schemaCols) ∧
      witTableA.cols.Nodup ∧ witTableB.cols.Nodup ∧
      witTableA.WF ∧ witTableB.WF ∧
      "nct_id" ∈ witTableA.cols ∧ "nct_id" ∈ witTableB.cols ∧
      uniqueKeys witTableA ∧ uniqueKeys witTableB ∧
      _merge_trials witTableA witTableB = Except.ok
        ⟨["nct_id", "overall_status", "sponsor", "brief_title", "source"],
         [[.str "NCT-1", .null, .str "sponsor B", .str "title A", .str "dataset1"],
          [.str "NCT-9", .null, .str "sponsor 9", .null, .str "dataset2"]]⟩) ∧
    ((∀ c ∈ witTableA.cols, c ∈ witTableB.cols → c ≠ "nct_id" →
      c ∈ (Table.mk ["nct_id", "overall_status", "sponsor", "brief_title", "source"]
          [[.str "NCT-1", .null, .str "sponsor B", .str "title A", .str "dataset1"],
           [.str "NCT-9", .null, .str "sponsor 9", .null, .str "dataset2"]]).cols ∧
      (c ++ "_1") ∉ (Table.mk ["nct_id", "overall_status", "sponsor", "brief_title", "source"]
          [[.str "NCT-1", .null, .str "sponsor B", .str "title A", .str "dataset1"],
           [.str "NCT-9", .null, .str "sponsor 9", .null, .str "dataset2"]]).cols ∧
      (c ++ "_2") ∉ (Table.mk ["nct_id", "overall_status", "sponsor", "brief_title", "source"]
          [[.str "NCT-1", .null, .str "sponsor B", .str "title A", .str "dataset1"],
           [.str "NCT-9", .null, .str "sponsor 9", .null, .str "dataset2"]]).cols ∧
      (colAt (Table.mk ["nct_id", "overall_status", "sponsor", "brief_title", "source"]
          [[.str "NCT-1", .null, .str "sponsor B", .str "title A", .str "dataset1"],
           [.str "NCT-9", .null, .str "sponsor 9", .null, .str "dataset2"]]) c).take
          witTableA.rows.length
        = witTableA.rows.map (fun r1 =>
            combineFirstV (getCell witTableA.cols r1 c) (bCell witTableA witTableB c r1)))
    ∧ (∀ c ∈ witTableA.cols, c ∉ witTableB.cols →
      c ∈ (Table.mk ["nct_id", "overall_status", "sponsor", "brief_title", "source"]
          [[.str "NCT-1", .null, .str "sponsor B", .str "title A", .str "dataset1"],
           [.str "NCT-9", .null, .str "sponsor 9", .null, .str "dataset2"]]).cols ∧
      (colAt (Table.mk ["nct_id", "overall_status", "sponsor", "brief_title", "source"]
          [[.str "NCT-1", .null, .str "sponsor B", .str "title A", .str "dataset1"],
           [.str "NCT-9", .null, .str "sponsor 9", .null, .str "dataset2"]]) c).take
          witTableA.rows.length
        = witTableA.rows.map (fun r1 => getCell witTableA.cols r1 c))
    ∧ (∀ c ∈ witTableB.cols, c ∉ witTableA.cols →
      c ∈ (Table.mk ["nct_id", "overall_status", "sponsor", "brief_title", "source"]
          [[.str "NCT-1", .null, .str "sponsor B", .str "title A", .str "dataset1"],
           [.str "NCT-9", .null, .str "sponsor 9", .null, .str "dataset2"]]).cols ∧
      (colAt (Table.mk ["nct_id", "overall_status", "sponsor", "brief_title", "source"]
          [[.str "NCT-1", .null, .str "sponsor B", .str "title A", .str "dataset1"],
           [.str "NCT-9", .null, .str "sponsor 9", .null, .str "dataset2"]]) c).take
          witTableA.rows.length
        = witTableA.rows.map (fun r1 => bCell witTableA witTableB c r1))) :=
  ⟨⟨by decide, by decide, by decide, by decide, by decide, by decide, by decide,
    by decide, by decide, by decide, by rfl⟩,
   c6_merge_conflict_resolution witTableA witTableB
     ⟨["nct_id", "overall_status", "sponsor", "brief_title", "source"],
      [[.str "NCT-1", .null, .str "sponsor B", .str "title A", .str "dataset1"],
       [.str "NCT-9", .null, .str "sponsor 9", .null, .str "dataset2"]]⟩
     (by decide) (by decide) (by decide) (by decide) (by decide) (by decide)
     (by decide) (by decide) (by decide) (by decide) (by rfl)⟩

/-- C7 (amended, confirmed): the provenance marker is itself combined by
the conflict resolution: the output carries a single `source` column,
neither suffixed copy survives, and on the rows coming from table A the
combined marker reads `dataset1`. -/
theorem c7_source_coalesced (df1 df2 out : Table)
    (hs1 : ∀ c ∈ df1.cols, c ∈ schemaCols) (hs2 : ∀ c ∈ df2.cols, c ∈ schemaCols)
    (hnd1 : df1.cols.Nodup) (hnd2 : df2.cols.Nodup)
    (hwf1 : df1.WF) (hwf2 : df2.WF)
    (hk1 : "nct_id" ∈ df1.cols) (hk2 : "nct_id" ∈ df2.cols)
    (hu2 : uniqueKeys df2)
    (hres : _merge_trials df1 df2 = Except.ok out) :
    "source" ∈ out.cols ∧ ("source" ++ "_1") ∉ out.cols ∧
    ("source" ++ "_2") ∉ out.cols ∧
    (colAt out "source").take df1.rows.length
      = List.replicate df1.rows.length (FlatValue.str "dataset1") := by
  have hsrc1 : "source" ∉ df1.cols := fun hm => schema_basic.2.2.1 (hs1 _ hm)
  have hsrc2 : "source" ∉ df2.cols := fun hm => schema_basic.2.2.1 (hs2 _ hm)
  have hms1 : ∀ c ∈ df1.cols, c ∈ mergeSchemaCols :=
    fun c hc => schema_basic.2.2.2.2.2.2.2.2.1 c (hs1 c hc)
  have hms2 : ∀ c ∈ df2.cols, c ∈ mergeSchemaCols :=
    fun c hc => schema_basic.2.2.2.2.2.2.2.2.1 c (hs2 c hc)
  obtain ⟨hsd1, hndd1, hwfd1, hkd1, _⟩ :
      (∀ c ∈ (mergeInput1After df1).cols, c ∈ mergeSchemaCols) ∧
      (mergeInput1After df1).cols.Nodup ∧ (mergeInput1After df1).WF ∧
      "nct_id" ∈ (mergeInput1After df1).cols ∧
      (mergeInput1After df1).rows.length = df1.rows.length :=
    tagged_props df1 (.str "dataset1") hms1 hnd1 hwf1 hk1
  obtain ⟨hsd2, hndd2, hwfd2, hkd2, _⟩ :
      (∀ c ∈ (mergeInput2After df2).cols, c ∈ mergeSchemaCols) ∧
      (mergeInput2After df2).cols.Nodup ∧ (mergeInput2After df2).WF ∧
      "nct_id" ∈ (mergeInput2After df2).cols ∧
      (mergeInput2After df2).rows.length = df2.rows.length :=
    tagged_props df2 (.str "dataset2") hms2 hnd2 hwf2 hk2
  have hcolsd1 : (mergeInput1After df1).cols = df1.cols ++ ["source"] :=
    setColVals_cols_of_not_mem df1 "source" _ hsrc1
  have hcolsd2 : (mergeInput2After df2).cols = df2.cols ++ ["source"] :=
    setColVals_cols_of_not_mem df2 "source" _ hsrc2
  have hrowsd1 : (mergeInput1After df1).rows
      = df1.rows.map (fun r => r ++ [FlatValue.str "dataset1"]) :=
    setColScalar_rows_of_not_mem df1 "source" _ hsrc1
  have hu2d : uniqueKeys (mergeInput2After df2) :=
    uniqueKeys_tagged df2 _ hsrc2 hk2 hwf2 hu2
  have hmnd := mergeOuter_cols_nodup (mergeInput1After df1) (mergeInput2After df2)
    hsd1 hsd2 hndd1 hndd2
  have hmwf := mergeOuter_WF (mergeInput1After df1) (mergeInput2After df2) hwfd1 hwfd2
  have hLsch : ∀ col ∈ sharedCols (mergeInput1After df1) (mergeInput2After df2),
      col ∈ mergeSchemaCols :=
    fun col hcol => hsd1 col ((mem_sharedCols _ _ col).mp hcol).1
  obtain ⟨_, hproc, hkeep, hco⟩ :=
    combine_fold_spec (sharedCols (mergeInput1After df1) (mergeInput2After df2))
      (mergeOuter (mergeInput1After df1) (mergeInput2After df2))
      (fold_hyps_mergeOuter _ _ hsd1 hsd2)
      (sharedCols_nodup _ _ hndd1) hLsch hmnd hmwf
  have hout : out = (sharedCols (mergeInput1After df1) (mergeInput2After df2)).foldl
      combineColStep (mergeOuter (mergeInput1After df1) (mergeInput2After df2)) := by
    have h0 := merge_trials_ok df1 df2 hk1 hk2
    rw [hres] at h0
    have h1 := Except.ok.inj h0
    rw [h1]
    unfold combineStep
    rw [colsToCombine_mergeOuter _ _ hsd1 hsd2]
  have htake : ∀ x,
      (colAt (mergeOuter (mergeInput1After df1) (mergeInput2After df2)) x).take
          df1.rows.length
        = df1.rows.map (fun r1 =>
            getCell (mergeOuter (mergeInput1After df1) (mergeInput2After df2)).cols
              (mergedLeft (mergeInput1After df1) (mergeInput2After df2)
                (r1 ++ [FlatValue.str "dataset1"])) x) := by
    intro x
    have h := colAt_mergeOuter_take (mergeInput1After df1) (mergeInput2After df2) x hu2d
    rw [hrowsd1, List.length_map, List.map_map] at h
    exact h
  have hsrcd1 : "source" ∈ (mergeInput1After df1).cols := by
    rw [hcolsd1]
    exact List.mem_append_right _ (List.mem_singleton.mpr rfl)
  have hsrcd2 : "source" ∈ (mergeInput2After df2).cols := by
    rw [hcolsd2]
    exact List.mem_append_right _ (List.mem_singleton.mpr rfl)
  have hcsh : "source" ∈ sharedCols (mergeInput1After df1) (mergeInput2After df2) :=
    (mem_sharedCols _ _ "source").mpr ⟨hsrcd1, by decide, hsrcd2⟩
  obtain ⟨hmem, hn1, hn2, hvals⟩ := hproc "source" hcsh
  rw [← hout] at hmem hn1 hn2 hvals
  refine ⟨hmem, hn1, hn2, ?_⟩
  rw [hvals, take_zipWith, htake ("source" ++ "_1"), htake ("source" ++ "_2"),
    zipWith_map_same]
  have hmap : df1.rows.map (fun _ => FlatValue.str "dataset1")
      = List.replicate df1.rows.length (FlatValue.str "dataset1") :=
    List.map_const df1.rows _
  rw [← hmap]
  refine List.map_congr_left ?_
  intro r1 hr1
  have hlen1 : (r1 ++ [FlatValue.str "dataset1"]).length
      = (mergeInput1After df1).cols.length := by
    rw [hcolsd1, List.length_append, List.length_append, hwf1 r1 hr1]
    rfl
  have hsfx : sfx1 (mergeInput2After df2) "source" = "source" ++ "_1" := by
    unfold sfx1
    rw [if_pos ⟨by decide, hsrcd2⟩]
  have hstep1 : getCell (mergeOuter (mergeInput1After df1) (mergeInput2After df2)).cols
      (mergedLeft (mergeInput1After df1) (mergeInput2After df2)
        (r1 ++ [FlatValue.str "dataset1"])) ("source" ++ "_1")
      = FlatValue.str "dataset1" := by
    rw [← hsfx,
      getCell_mergedLeft_left (mergeInput1After df1) (mergeInput2After df2)
        (r1 ++ [FlatValue.str "dataset1"]) "source" hsrcd1 hsd1 hlen1, hcolsd1,
      getCell_append_right df1.cols ["source"] r1 _ "source" hsrc1 (hwf1 r1 hr1),
      getCell_cons]
    rw [if_pos rfl]
  rw [hstep1]
  unfold combineFirstV
  rw [if_neg (by decide : ¬ (FlatValue.str "dataset1" = FlatValue.null))]

/-- C7 (witness): the amended theorem on the two tiny key-only tables. -/
theorem c7_source_coalesced_witness :
    ((∀ c ∈ tinyTableA.cols, c ∈ schemaCols) ∧
      (∀ c ∈ tinyTableB.cols, c ∈ schemaCols) ∧
      tinyTableA.cols.Nodup ∧ tinyTableB.cols.Nodup ∧
      tinyTableA.WF ∧ tinyTableB.WF ∧
      "nct_id" ∈ tinyTableA.cols ∧ "nct_id" ∈ tinyTableB.cols ∧
      uniqueKeys tinyTableB ∧
      _merge_trials tinyTableA tinyTableB = Except.ok
        ⟨["nct_id", "source"],
         [[.str "NCT-A", .str "dataset1"], [.str "NCT-B", .str "dataset2"]]⟩) ∧
    ("source" ∈ (Table.mk ["nct_id", "source"]
        [[.str "NCT-A", .str "dataset1"], [.str "NCT-B", .str "dataset2"]]).cols ∧
      ("source" ++ "_1") ∉ (Table.mk ["nct_id", "source"]
        [[.str "NCT-A", .str "dataset1"], [.str "NCT-B", .str "dataset2"]]).cols ∧
      ("source" ++ "_2") ∉ (Table.mk ["nct_id", "source"]
        [[.str "NCT-A", .str "dataset1"], [.str "NCT-B", .str "dataset2"]]).cols ∧
      (colAt (Table.mk ["nct_id", "source"]
          [[.str "NCT-A", .str "dataset1"], [.str "NCT-B", .str "dataset2"]])
        "source").take tinyTableA.rows.length
        = List.replicate tinyTableA.rows.length (FlatValue.str "dataset1")) :=
  ⟨⟨by decide, by decide, by decide, by decide, by decide, by decide, by decide,
    by decide, by decide, by rfl⟩,
   c7_source_coalesced tinyTableA tinyTableB
     ⟨["nct_id", "source"],
      [[.str "NCT-A", .str "dataset1"], [.str "NCT-B", .str "dataset2"]]⟩
     (by decide) (by decide) (by decide) (by decide) (by decide) (by decide)
     (by decide) (by decide) (by decide) (by rfl)⟩

end CTrials
